import Mathlib

/-!
Verification of the deployment-automation subsystem of `aula-16/challenge.py`
(`DeploymentManager` and its data model).

The Python source is shallowly embedded: the mutable `DeploymentManager`
becomes explicit state passing over `ManagerState`; record objects live in a
`heap` list (position = creation order) and the `deployments` dict is an
insertion-ordered association list from id to heap position, so that Python's
object aliasing (dict entries can be replaced while the object survives) is
captured faithfully.  Exceptions become `Option`-valued error results.
Machine-level details kept from the source: deployment ids are the first 8 hex
characters of an MD5 digest (implemented below and checked against standard
test vectors), and Python truthiness (`if app_name:`, `if previous_version:`,
`elif config.canary_percentage:`) is modelled as the explicit
none-or-empty/zero tests it performs.
-/

set_option maxRecDepth 100000
set_option maxHeartbeats 1600000

namespace CICD

/-! ### MD5 (as used by `_generate_deployment_id`: `hashlib.md5(data).hexdigest()[:8]`) -/

namespace MD5

def M32 : Nat := 4294967296

/-- Bitwise complement within 32 bits (inputs are kept `< 2^32`). -/
def wnot (a : Nat) : Nat := 4294967295 - a % M32

def wadd (a b : Nat) : Nat := (a + b) % M32

/-- 32-bit left rotation. -/
def rotl (x s : Nat) : Nat := (((x % M32) <<< s) ||| ((x % M32) >>> (32 - s))) % M32

/-- The 64 sine-derived round constants of MD5. -/
def K : List Nat := [
  3614090360, 3905402710, 606105819, 3250441966,
  4118548399, 1200080426, 2821735955, 4249261313,
  1770035416, 2336552879, 4294925233, 2304563134,
  1804603682, 4254626195, 2792965006, 1236535329,
  4129170786, 3225465664, 643717713, 3921069994,
  3593408605, 38016083, 3634488961, 3889429448,
  568446438, 3275163606, 4107603335, 1163531501,
  2850285829, 4243563512, 1735328473, 2368359562,
  4294588738, 2272392833, 1839030562, 4259657740,
  2763975236, 1272893353, 4139469664, 3200236656,
  681279174, 3936430074, 3572445317, 76029189,
  3654602809, 3873151461, 530742520, 3299628645,
  4096336452, 1126891415, 2878612391, 4237533241,
  1700485571, 2399980690, 4293915773, 2240044497,
  1873313359, 4264355552, 2734768916, 1309151649,
  4149444226, 3174756917, 718787259, 3951481745]

/-- The 64 per-round rotation amounts of MD5. -/
def S : List Nat := [
  7, 12, 17, 22, 7, 12, 17, 22, 7, 12, 17, 22, 7, 12, 17, 22,
  5, 9, 14, 20, 5, 9, 14, 20, 5, 9, 14, 20, 5, 9, 14, 20,
  4, 11, 16, 23, 4, 11, 16, 23, 4, 11, 16, 23, 4, 11, 16, 23,
  6, 10, 15, 21, 6, 10, 15, 21, 6, 10, 15, 21, 6, 10, 15, 21]

def F (b c d : Nat) : Nat := (b &&& c) ||| (wnot b &&& d)
def G (b c d : Nat) : Nat := (d &&& b) ||| (wnot d &&& c)
def H (b c d : Nat) : Nat := b ^^^ c ^^^ d
def I (b c d : Nat) : Nat := c ^^^ (b ||| wnot d)

/-- One of the 64 MD5 rounds, acting on state `(a, b, c, d)`. -/
def step (M : List Nat) (st : Nat × Nat × Nat × Nat) (i : Nat) : Nat × Nat × Nat × Nat :=
  let (a, b, c, d) := st
  let fg : Nat × Nat :=
    if i < 16 then (F b c d, i % 16)
    else if i < 32 then (G b c d, (5 * i + 1) % 16)
    else if i < 48 then (H b c d, (3 * i + 5) % 16)
    else (I b c d, (7 * i) % 16)
  let f := wadd (wadd (wadd fg.1 a) (K.getD i 0)) (M.getD fg.2 0)
  (d, wadd b (rotl f (S.getD i 0)), b, c)

/-- Process one 16-word block. -/
def processBlock (st : Nat × Nat × Nat × Nat) (M : List Nat) : Nat × Nat × Nat × Nat :=
  let r := (List.range 64).foldl (step M) st
  (wadd st.1 r.1, wadd st.2.1 r.2.1, wadd st.2.2.1 r.2.2.1, wadd st.2.2.2 r.2.2.2)

/-- `k` bytes of `n`, little-endian. -/
def leBytes : Nat → Nat → List Nat
  | _, 0 => []
  | n, k + 1 => (n % 256) :: leBytes (n / 256) k

/-- MD5 padding: `0x80`, zeros to 56 mod 64, then the 64-bit little-endian bit length. -/
def padMessage (msg : List Nat) : List Nat :=
  msg ++ [128] ++ List.replicate ((64 + 56 - (msg.length + 1) % 64) % 64) 0
      ++ leBytes (8 * msg.length) 8

/-- Group little-endian byte quadruples into 32-bit words. -/
def toWords : List Nat → List Nat
  | b0 :: b1 :: b2 :: b3 :: rest =>
      (b0 + 256 * b1 + 65536 * b2 + 16777216 * b3) :: toWords rest
  | _ => []

/-- Split into 64-byte chunks (fuel = list length, amply sufficient). -/
def chunksAux : Nat → List Nat → List (List Nat)
  | 0, _ => []
  | _, [] => []
  | n + 1, l => l.take 64 :: chunksAux n (l.drop 64)

def initState : Nat × Nat × Nat × Nat := (1732584193, 4023233417, 2562383102, 271733878)

def digestWords (msg : List Nat) : Nat × Nat × Nat × Nat :=
  let padded := padMessage msg
  (chunksAux padded.length padded).foldl (fun st blk => processBlock st (toWords blk)) initState

def digestBytes (msg : List Nat) : List Nat :=
  let w := digestWords msg
  leBytes w.1 4 ++ leBytes w.2.1 4 ++ leBytes w.2.2.1 4 ++ leBytes w.2.2.2 4

def hexDigit (n : Nat) : Char := if n < 10 then Char.ofNat (48 + n) else Char.ofNat (87 + n)

def byteHex (b : Nat) : String := String.mk [hexDigit (b / 16), hexDigit (b % 16)]

def bytesHex (l : List Nat) : String := String.join (l.map byteHex)

/-- `hashlib.md5(data).hexdigest()` for a byte list. -/
def md5hex (msg : List Nat) : String := bytesHex (digestBytes msg)

/-- `str.encode()` for the ASCII strings occurring in deployment-id data. -/
def strBytes (s : String) : List Nat := s.toList.map Char.toNat

end MD5

/-- Standard test vector: the MD5 model matches `md5("")`. -/
theorem md5_vector_empty : MD5.md5hex [] = "d41d8cd98f00b204e9800998ecf8427e" := by decide

/-- Standard test vector: the MD5 model matches `md5("abc")`. -/
theorem md5_vector_abc :
    MD5.md5hex (MD5.strBytes "abc") = "900150983cd24fb0d6963f7d28e17f72" := by decide

/-! ### Data model (`DeploymentStatus`, `Environment`, `HealthCheck`, `DeploymentConfig`,
`DeploymentRecord`), from `challenge.py` lines 17–91. -/

inductive DeploymentStatus where
  | pending
  | in_progress
  | success
  | failed
  | rolled_back
deriving DecidableEq

/-- The `.value` string of each `DeploymentStatus` member. -/
def DeploymentStatus.value : DeploymentStatus → String
  | .pending => "pending"
  | .in_progress => "in_progress"
  | .success => "success"
  | .failed => "failed"
  | .rolled_back => "rolled_back"

inductive Environment where
  | development
  | staging
  | production
deriving DecidableEq

/-- The `.value` string of each `Environment` member. -/
def Environment.value : Environment → String
  | .development => "development"
  | .staging => "staging"
  | .production => "production"

/-- `HealthCheck` dataclass.  The source's `check()` is a simulation stub
(`return True  # Simplified for demo`); per the spec real execution is an
external collaborator (§4.1, §6).  `result` — Modelled from the spec: the
boolean outcome that `check()` reports for this probe; the source stub is the
special case `result = true`. -/
structure HealthCheck where
  endpoint : String
  expected_status : Nat := 200
  timeout : Nat := 30
  retries : Nat := 3
  result : Bool := true
deriving DecidableEq

/-- `HealthCheck.check()`. -/
def HealthCheck.check (hc : HealthCheck) : Bool := hc.result

/-- `DeploymentConfig` dataclass.  `canary_percentage : Optional[int]` is kept
as `Option Int` (Python ints may be zero or negative; `elif
config.canary_percentage:` tests truthiness). -/
structure DeploymentConfig where
  application_name : String
  version : String
  environment : Environment
  artifact_url : String
  health_checks : List HealthCheck
  rollback_enabled : Bool := true
  blue_green : Bool := false
  canary_percentage : Option Int := none
deriving DecidableEq

/-- `DeploymentRecord` dataclass.  `start_time`/`end_time` are draws from a
logical clock (see `ManagerState.clock`); log entries are kept without the
`[timestamp] ` prefix that `add_log` prepends, which no claim inspects. -/
structure DeploymentRecord where
  id : String
  config : DeploymentConfig
  status : DeploymentStatus
  start_time : Nat
  end_time : Option Nat := none
  logs : List String := []
  error_message : Option String := none
deriving DecidableEq

def defaultRecord : DeploymentRecord :=
  { id := ""
    config :=
      { application_name := "", version := "", environment := .development
        artifact_url := "", health_checks := [] }
    status := .pending
    start_time := 0 }

instance : Inhabited DeploymentRecord := ⟨defaultRecord⟩

/-! ### Manager state

Python's `self.deployments: Dict[str, DeploymentRecord]` holds mutable record
objects.  We model the objects in `heap` (position = creation order; records
are only ever appended and mutated in place, mirroring the source where
objects are never destroyed) and the dict as `table`, an insertion-ordered
association list from id to heap position.  Assigning to an existing key
replaces the value in place (Python dict semantics), which makes the earlier
object unreachable through the dict while it still exists in `heap`. -/

structure ManagerState where
  heap : List DeploymentRecord
  table : List (String × Nat)
  environment_versions : List (Environment × List (String × String))
  clock : Nat
deriving DecidableEq

/-- `DeploymentManager.__init__`: empty record table, an (empty) version dict
for every environment.  The logical clock starts at 0. -/
def initManager : ManagerState :=
  { heap := []
    table := []
    environment_versions := [(.development, []), (.staging, []), (.production, [])]
    clock := 0 }

/-- One `datetime.now()` draw: returns the current instant and advances the clock. -/
def tick (s : ManagerState) : Nat × ManagerState :=
  (s.clock, { s with clock := s.clock + 1 })

/-- Python `dict` assignment `d[k] = v`: replace in place if the key exists,
else append. -/
def dictInsert (k : String) (v : Nat) : List (String × Nat) → List (String × Nat)
  | [] => [(k, v)]
  | p :: rest => if p.1 = k then (k, v) :: rest else p :: dictInsert k v rest

/-- Assignment into a `Dict[str, str]` (same in-place-replace semantics). -/
def assocSet (k v : String) : List (String × String) → List (String × String)
  | [] => [(k, v)]
  | p :: rest => if p.1 = k then (k, v) :: rest else p :: assocSet k v rest

/-- The version-map contents after `self.environment_versions[env][app] = version`. -/
def envSetL (env : Environment) (app version : String)
    (l : List (Environment × List (String × String))) :
    List (Environment × List (String × String)) :=
  l.map fun p => if p.1 = env then (p.1, assocSet app version p.2) else p

/-- `self.environment_versions[env][app] = version`. -/
def envSet (s : ManagerState) (env : Environment) (app version : String) : ManagerState :=
  { s with environment_versions := envSetL env app version s.environment_versions }

/-- Read `self.environment_versions[env].get(app)`. -/
def envLookup (s : ManagerState) (env : Environment) (app : String) : Option String :=
  match s.environment_versions.find? (fun p => p.1 = env) with
  | some p => (p.2.find? (fun q => q.1 = app)).map (·.2)
  | none => none

/-- The record object currently at heap position `ref`. -/
def recAt (s : ManagerState) (ref : Nat) : DeploymentRecord := s.heap.getD ref defaultRecord

/-- Replace the element at position `ref` (out-of-range is a no-op; all uses
are in range). -/
def listModify (f : DeploymentRecord → DeploymentRecord) :
    Nat → List DeploymentRecord → List DeploymentRecord
  | _, [] => []
  | 0, r :: rest => f r :: rest
  | n + 1, r :: rest => r :: listModify f n rest

/-- Mutate the record object at heap position `ref`. -/
def modifyRec (s : ManagerState) (ref : Nat) (f : DeploymentRecord → DeploymentRecord) :
    ManagerState :=
  { s with heap := listModify f ref s.heap }

/-- `record.add_log(message)` (timestamp prefix omitted, see `DeploymentRecord`). -/
def addLog (s : ManagerState) (ref : Nat) (msg : String) : ManagerState :=
  modifyRec s ref fun r => { r with logs := r.logs ++ [msg] }

/-- `self.deployments.values()`, in dict insertion order. -/
def valuesOf (s : ManagerState) : List DeploymentRecord :=
  s.table.map fun kv => s.heap.getD kv.2 defaultRecord

/-- Rendering of one `datetime` instant into the id-data string.  Modelled
from the spec: the wall-clock time source is an external collaborator (§6);
the logical instant is rendered in decimal where the source uses
`datetime.now().isoformat()`. -/
def isoStr (t : Nat) : String := toString t

/-- `DeploymentManager._generate_deployment_id` (lines 119–122):
`md5(f"{app}-{version}-{env.value}-{now}").hexdigest()[:8]`. -/
def generate_deployment_id (config : DeploymentConfig) (t : Nat) : String :=
  let data := config.application_name ++ "-" ++ config.version ++ "-"
      ++ config.environment.value ++ "-" ++ isoStr t
  (MD5.md5hex (MD5.strBytes data)).take 8

/-- Python truthiness of `Optional[int]`: `None` and `0` are falsy. -/
def canaryTruthy : Option Int → Bool
  | some n => n ≠ 0
  | none => false

/-- Rendering of `config.canary_percentage` inside the canary log line. -/
def canaryStr : Option Int → String
  | some n => toString n
  | none => "None"

/-- `DeploymentManager._execute_deployment` (lines 173–194).  Precedence is
the source's `if config.blue_green: ... elif config.canary_percentage: ...
else: ...`; only log entries are produced (sleeps are timing, not state). -/
def execute_deployment (s : ManagerState) (ref : Nat) : ManagerState :=
  let config := (recAt s ref).config
  let s :=
    if config.blue_green then
      addLog (addLog s ref "Executing blue-green deployment") ref
        "Blue environment ready, switching traffic"
    else if canaryTruthy config.canary_percentage then
      addLog (addLog s ref
          ("Starting canary deployment with " ++ canaryStr config.canary_percentage
            ++ "% traffic")) ref
        "Canary deployment successful, rolling out to 100%"
    else
      addLog s ref "Executing rolling deployment"
  addLog s ref "Application deployed successfully"

/-- The loop body of `_run_health_checks` (lines 201–207), with `i` the
`enumerate` index.  A failing check raises
`Exception(f"Health check failed for {endpoint}")`, modelled as a `some`
error message; the log entries written before the raise are retained. -/
def run_health_checks_aux (ref : Nat) :
    ManagerState → Nat → List HealthCheck → ManagerState × Option String
  | s, _, [] => (addLog s ref "All health checks passed", none)
  | s, i, hc :: rest =>
      let s := addLog s ref ("Health check " ++ toString (i + 1) ++ ": " ++ hc.endpoint)
      if hc.check then
        let s := addLog s ref ("Health check " ++ toString (i + 1) ++ " passed")
        run_health_checks_aux ref s (i + 1) rest
      else
        (s, some ("Health check failed for " ++ hc.endpoint))

/-- `DeploymentManager._run_health_checks` (lines 196–209). -/
def run_health_checks (s : ManagerState) (ref : Nat) : ManagerState × Option String :=
  let checks := (recAt s ref).config.health_checks
  run_health_checks_aux ref (addLog s ref "Running health checks...") 0 checks

/-- Python truthiness of `Optional[str]`: `None` and `""` are falsy. -/
def strTruthy : Option String → Bool
  | some v => v ≠ ""
  | none => false

/-- Stable ascending insertion by `start_time` (Python `sorted` is stable). -/
def insertByStart (r : DeploymentRecord) :
    List DeploymentRecord → List DeploymentRecord
  | [] => [r]
  | x :: xs =>
      if x.start_time < r.start_time then x :: insertByStart r xs else r :: x :: xs

/-- `sorted(deployments, key=lambda x: x.start_time)`. -/
def sortByStart : List DeploymentRecord → List DeploymentRecord
  | [] => []
  | x :: xs => insertByStart x (sortByStart xs)

/-- Stable descending insertion by `start_time` (ties keep original order,
as `sorted(..., reverse=True)` does). -/
def insertByStartDesc (r : DeploymentRecord) :
    List DeploymentRecord → List DeploymentRecord
  | [] => [r]
  | x :: xs =>
      if r.start_time < x.start_time then x :: insertByStartDesc r xs else r :: x :: xs

/-- `sorted(deployments, key=lambda x: x.start_time, reverse=True)`. -/
def sortByStartDesc : List DeploymentRecord → List DeploymentRecord
  | [] => []
  | x :: xs => insertByStartDesc x (sortByStartDesc xs)

/-- Membership test of `_get_previous_version`'s list comprehension filter. -/
def isSuccessFor (app : String) (env : Environment) (d : DeploymentRecord) : Bool :=
  d.config.application_name = app ∧ d.config.environment = env ∧
    d.status = DeploymentStatus.success

/-- `DeploymentManager._get_previous_version` (lines 238–253): latest
(`sorted(...)[-1]`) success-status record for the pair, else `None`. -/
def get_previous_version (s : ManagerState) (app_name : String) (environment : Environment) :
    Option String :=
  let successful := (valuesOf s).filter (isSuccessFor app_name environment)
  if successful.isEmpty then none
  else ((sortByStart successful).getLast?).map fun d => d.config.version

/-- `DeploymentManager._auto_rollback` (lines 211–236), parameterized by the
`deploy` it recursively invokes.  Note the source sets the original record's
status to `ROLLED_BACK` unconditionally after the nested `deploy` returns:
the nested call never raises, and its own outcome is not consulted.
`if previous_version:` is Python truthiness, so an empty-string version also
counts as "no previous version". -/
def auto_rollback (deployFn : ManagerState → DeploymentConfig → ManagerState × String)
    (s : ManagerState) (ref : Nat) : ManagerState :=
  let config := (recAt s ref).config
  let previous_version := get_previous_version s config.application_name config.environment
  if strTruthy previous_version then
    let pv := previous_version.getD ""
    let s := addLog s ref ("Auto-rolling back to version " ++ pv)
    let rollback_config : DeploymentConfig :=
      { application_name := config.application_name
        version := pv
        environment := config.environment
        artifact_url := "rollback://" ++ pv
        health_checks := config.health_checks
        rollback_enabled := false }
    let sid := deployFn s rollback_config
    let s := addLog sid.1 ref ("Rollback deployment: " ++ sid.2)
    modifyRec s ref fun r => { r with status := DeploymentStatus.rolled_back }
  else
    addLog s ref "No previous version found for rollback"

/-- The body of `DeploymentManager.deploy` (lines 124–171), parameterized by
the rollback continuation used in the `except` branch.  Step order follows
the source: generate id (one `now()` draw), create the record with a second
`now()` draw as `start_time`, insert into the dict, log, transition to
`in_progress`, run the rollout and the health checks, then either update the
version map and mark success, or mark failure (a third `now()` draw as
`end_time` either way) and auto-roll back when enabled.  The `try/except`
catches every failure from the rollout/health-check phase, so the body always
returns the id. -/
def deployBody (rollbackFn : ManagerState → Nat → ManagerState)
    (s : ManagerState) (config : DeploymentConfig) : ManagerState × String :=
  let ti := tick s
  let deployment_id := generate_deployment_id config ti.1
  let t0 := tick ti.2
  let ref := t0.2.heap.length
  let record : DeploymentRecord :=
    { id := deployment_id, config := config, status := .pending, start_time := t0.1 }
  let s := { t0.2 with
    heap := t0.2.heap ++ [record]
    table := dictInsert deployment_id ref t0.2.table }
  let s := addLog s ref
    ("Starting deployment of " ++ config.application_name ++ " v" ++ config.version)
  let s := modifyRec s ref fun r => { r with status := DeploymentStatus.in_progress }
  let s := addLog s ref "Deployment in progress..."
  let s := execute_deployment s ref
  match run_health_checks s ref with
  | (s, none) =>
      let s := envSet s config.environment config.application_name config.version
      let te := tick s
      let s := modifyRec te.2 ref fun r =>
        { r with status := DeploymentStatus.success, end_time := some te.1 }
      let s := addLog s ref "Deployment completed successfully"
      (s, deployment_id)
  | (s, some e) =>
      let te := tick s
      let s := modifyRec te.2 ref fun r =>
        { r with status := DeploymentStatus.failed, end_time := some te.1
                 error_message := some e }
      let s := addLog s ref ("Deployment failed: " ++ e)
      let s := if config.rollback_enabled then rollbackFn s ref else s
      (s, deployment_id)

/-- `DeploymentManager.deploy` with explicit recursion fuel.  The nested
rollback invocation runs on one unit less; fuel 0 is a sentinel that is never
reached from fuel ≥ 2 (theorem `C4_rollback_recursion_bounded`). -/
def deployFuel : Nat → ManagerState → DeploymentConfig → ManagerState × String
  | 0, s, _ => (s, "")
  | fuel + 1, s, config => deployBody (auto_rollback (deployFuel fuel)) s config

/-- `DeploymentManager.deploy`.  Fuel 2 is exact: auto-rollback configs have
`rollback_enabled = false`, so the recursion depth is at most 1. -/
def deploy (s : ManagerState) (config : DeploymentConfig) : ManagerState × String :=
  deployFuel 2 s config

/-- `DeploymentManager.rollback` (lines 255–273).  A `none` id means the
`ValueError("No target version found for rollback")` propagated to the
caller; the state is returned unchanged in that case because the raise
happens before any record is created.  `if not target_version:` is Python
truthiness (an empty-string target also raises). -/
def rollback (s : ManagerState) (app_name : String) (environment : Environment)
    (target_version : Option String := none) : ManagerState × Option String :=
  let tv := match target_version with
    | none => get_previous_version s app_name environment
    | some t => some t
  if strTruthy tv then
    let t := tv.getD ""
    let config : DeploymentConfig :=
      { application_name := app_name
        version := t
        environment := environment
        artifact_url := "rollback://" ++ t
        health_checks := [{ endpoint := "http://" ++ app_name ++ "/health" }]
        rollback_enabled := false }
    let sid := deploy s config
    (sid.1, some sid.2)
  else
    (s, none)

/-- `DeploymentManager.get_deployment_status` (lines 275–277). -/
def get_deployment_status (s : ManagerState) (deployment_id : String) :
    Option DeploymentRecord :=
  (s.table.find? (fun kv => kv.1 = deployment_id)).map fun kv => s.heap.getD kv.2 defaultRecord

/-- `DeploymentManager.list_deployments` (lines 279–289).  `if app_name:` is
Python truthiness: an empty-string filter is skipped.  `if environment:` is
always true for a supplied `Environment` member. -/
def list_deployments (s : ManagerState) (app_name : Option String := none)
    (environment : Option Environment := none) : List DeploymentRecord :=
  let ds := valuesOf s
  let ds := match app_name with
    | some a => if a = "" then ds else ds.filter fun d => d.config.application_name = a
    | none => ds
  let ds := match environment with
    | some e => ds.filter fun d => d.config.environment = e
    | none => ds
  sortByStartDesc ds

/-- `DeploymentManager.get_environment_status` (lines 291–295). -/
def get_environment_status (s : ManagerState) : List (String × List (String × String)) :=
  s.environment_versions.map fun p => (p.1.value, p.2)

/-! ### Export (`to_dict`, `export_deployment_history`).  JSON serialization
itself is out of scope (spec §1 places formatting with external concerns);
the exported structure is modelled by `JVal`. -/

inductive JVal where
  | jnull
  | jstr (s : String)
  | jarr (l : List JVal)
  | jobj (l : List (String × JVal))

/-- `x.isoformat() if x else None` for optional timestamps. -/
def optIso : Option Nat → JVal
  | some t => .jstr (isoStr t)
  | none => .jnull

/-- `DeploymentRecord.to_dict` (lines 80–91). -/
def to_dict (r : DeploymentRecord) : List (String × JVal) :=
  [("id", .jstr r.id),
   ("application_name", .jstr r.config.application_name),
   ("version", .jstr r.config.version),
   ("environment", .jstr r.config.environment.value),
   ("status", .jstr r.status.value),
   ("start_time", .jstr (isoStr r.start_time)),
   ("end_time", optIso r.end_time),
   ("logs", .jarr (r.logs.map .jstr)),
   ("error_message", match r.error_message with | some m => .jstr m | none => .jnull)]

/-- `DeploymentManager.export_deployment_history` (lines 297–306), up to the
final `json.dumps`. -/
def export_deployment_history (s : ManagerState) : JVal :=
  .jobj
    [("deployments", .jarr ((valuesOf s).map fun d => .jobj (to_dict d))),
     ("environment_versions", .jobj (s.environment_versions.map fun p =>
        (p.1.value, .jobj (p.2.map fun q => (q.1, .jstr q.2))))),
     ("exported_at", .jstr (isoStr s.clock))]

/-! ### Traces: sequences of public operations on one manager. -/

inductive Op where
  | deployOp (config : DeploymentConfig)
  | rollbackOp (app_name : String) (environment : Environment) (target_version : Option String)

/-- Apply one public operation (a raised `ValueError` from `rollback` leaves
the state unchanged). -/
def applyOp (s : ManagerState) : Op → ManagerState
  | .deployOp c => (deploy s c).1
  | .rollbackOp a e t => (rollback s a e t).1

/-- The manager state after a sequence of public calls on a fresh manager. -/
def run (ops : List Op) : ManagerState := ops.foldl applyOp initManager

/-! ### Basic list lemmas for the heap / dict model -/

theorem getD_append_lt (l₁ l₂ : List DeploymentRecord) (i : Nat) (d : DeploymentRecord)
    (h : i < l₁.length) : (l₁ ++ l₂).getD i d = l₁.getD i d := by
  induction l₁ generalizing i with
  | nil => simp at h
  | cons x xs ih =>
      cases i with
      | zero => rfl
      | succ j => simpa using ih j (by simpa using h)

theorem getD_append_add (l₁ l₂ : List DeploymentRecord) (i : Nat) (d : DeploymentRecord) :
    (l₁ ++ l₂).getD (l₁.length + i) d = l₂.getD i d := by
  induction l₁ with
  | nil => simp
  | cons x xs ih => simpa [Nat.succ_add] using ih

theorem getD_append_self (l₁ l₂ : List DeploymentRecord) (d : DeploymentRecord) :
    (l₁ ++ l₂).getD l₁.length d = l₂.getD 0 d := by
  simpa using getD_append_add l₁ l₂ 0 d

theorem getD_mem_or_default (l : List DeploymentRecord) (i : Nat) (d : DeploymentRecord) :
    l.getD i d ∈ l ∨ l.getD i d = d := by
  induction l generalizing i with
  | nil => right; cases i <;> rfl
  | cons x xs ih =>
      cases i with
      | zero => left; simp [List.getD]
      | succ j =>
          have hstep : (x :: xs).getD (j + 1) d = xs.getD j d := by
            simp [List.getD]
          rcases ih j with h | h
          · left
            rw [hstep]
            exact List.mem_cons_of_mem x h
          · right; rw [hstep, h]

theorem listModify_length (f : DeploymentRecord → DeploymentRecord) (n : Nat)
    (l : List DeploymentRecord) : (listModify f n l).length = l.length := by
  induction l generalizing n with
  | nil => cases n <;> rfl
  | cons x xs ih => cases n <;> simp [listModify, ih]

theorem listModify_append (f : DeploymentRecord → DeploymentRecord)
    (l₁ : List DeploymentRecord) (x : DeploymentRecord) (rest : List DeploymentRecord) :
    listModify f l₁.length (l₁ ++ x :: rest) = l₁ ++ f x :: rest := by
  induction l₁ with
  | nil => rfl
  | cons y ys ih => simp [listModify, ih]

theorem listModify_append_left (f : DeploymentRecord → DeploymentRecord) (n : Nat)
    (l₁ l₂ : List DeploymentRecord) (h : n < l₁.length) :
    listModify f n (l₁ ++ l₂) = listModify f n l₁ ++ l₂ := by
  induction l₁ generalizing n with
  | nil => simp at h
  | cons x xs ih =>
      cases n with
      | zero => rfl
      | succ m => simp [listModify]; exact ih m (by simpa using h)

/-- Keys present in the dict are preserved by any further assignment. -/
theorem dictInsert_find?_of_ne (k k' : String) (v : Nat) (l : List (String × Nat))
    (h : k' ≠ k) :
    (dictInsert k v l).find? (fun kv => kv.1 = k') = l.find? (fun kv => kv.1 = k') := by
  have hkk : ¬(k = k') := fun hh => h hh.symm
  induction l with
  | nil => simp [dictInsert, List.find?, hkk]
  | cons p rest ih =>
      by_cases hp : p.1 = k
      · have hne : ¬(p.1 = k') := by rw [hp]; exact hkk
        simp [dictInsert, hp, List.find?, hkk, hne]
      · by_cases hk' : p.1 = k'
        · simp [dictInsert, hp, List.find?, hk', h]
        · simp [dictInsert, hp, List.find?, hk', ih]

theorem dictInsert_of_not_mem (k : String) (v : Nat) (l : List (String × Nat))
    (h : ∀ p ∈ l, p.1 ≠ k) : dictInsert k v l = l ++ [(k, v)] := by
  induction l with
  | nil => rfl
  | cons p rest ih =>
      have hp : p.1 ≠ k := h p (by simp)
      simp [dictInsert, hp]
      exact ih fun q hq => h q (by simp [hq])

theorem dictInsert_length_le (k : String) (v : Nat) (l : List (String × Nat)) :
    (dictInsert k v l).length ≤ l.length + 1 := by
  induction l with
  | nil => simp [dictInsert]
  | cons p rest ih =>
      by_cases hp : p.1 = k
      · simp [dictInsert, hp]
      · simp [dictInsert, hp]; omega

theorem dictInsert_length_of_mem (k : String) (v : Nat) (l : List (String × Nat))
    (h : ∃ p ∈ l, p.1 = k) : (dictInsert k v l).length = l.length := by
  induction l with
  | nil => simp at h
  | cons p rest ih =>
      by_cases hp : p.1 = k
      · simp [dictInsert, hp]
      · simp [dictInsert, hp]
        rcases h with ⟨q, hq, hqk⟩
        rcases List.mem_cons.mp hq with hq1 | hq1
        · exact absurd (hq1 ▸ hqk) hp
        · exact ih ⟨q, hq1, hqk⟩

theorem dictInsert_snd_lt (k : String) (v : Nat) (n : Nat) :
    ∀ l : List (String × Nat), (∀ p ∈ l, p.2 < n) → v < n →
      ∀ p ∈ dictInsert k v l, p.2 < n := by
  intro l
  induction l with
  | nil =>
      intro _ hv q hq
      simp [dictInsert] at hq
      simp [hq, hv]
  | cons p rest ih =>
      intro hl hv q hq
      by_cases hp : p.1 = k
      · rw [show dictInsert k v (p :: rest) = (k, v) :: rest by simp [dictInsert, hp]] at hq
        rcases List.mem_cons.mp hq with h1 | h1
        · simp [h1, hv]
        · exact hl q (List.mem_cons_of_mem p h1)
      · rw [show dictInsert k v (p :: rest) = p :: dictInsert k v rest by
            simp [dictInsert, hp]] at hq
        rcases List.mem_cons.mp hq with h1 | h1
        · exact h1 ▸ hl p (by simp)
        · exact ih (fun r hr => hl r (List.mem_cons_of_mem p hr)) hv q h1

/-! ### Explicit forms: what one `deploy` invocation produces in each scenario.

These definitions are derived descriptions of the source's behaviour, proved
equal to the embedded functions by the effect lemmas below; every later claim
is settled against those lemmas. -/

/-- The log entries `_execute_deployment` adds, by strategy precedence. -/
def execLogs (c : DeploymentConfig) : List String :=
  (if c.blue_green then
    ["Executing blue-green deployment", "Blue environment ready, switching traffic"]
   else if canaryTruthy c.canary_percentage then
    ["Starting canary deployment with " ++ canaryStr c.canary_percentage ++ "% traffic",
     "Canary deployment successful, rolling out to 100%"]
   else ["Executing rolling deployment"]) ++ ["Application deployed successfully"]

/-- Log entries of a deploy up to and including "Running health checks...". -/
def startLogs (c : DeploymentConfig) : List String :=
  ("Starting deployment of " ++ c.application_name ++ " v" ++ c.version)
    :: "Deployment in progress..." :: execLogs c ++ ["Running health checks..."]

/-- The "Health check i+1: endpoint" log entry (`i` is the 0-based index). -/
def checkLog (i : Nat) (hc : HealthCheck) : String :=
  "Health check " ++ toString (i + 1) ++ ": " ++ hc.endpoint

/-- Log entries produced by a run of passing health checks starting at index `i`. -/
def passLogs : Nat → List HealthCheck → List String
  | _, [] => []
  | i, hc :: rest =>
      checkLog i hc :: ("Health check " ++ toString (i + 1) ++ " passed") :: passLogs (i + 1) rest

/-- The exception message of a failing health check. -/
def hcFailMsg (hc : HealthCheck) : String := "Health check failed for " ++ hc.endpoint

/-- The config `_auto_rollback` builds for the nested deploy: same application,
environment and health checks, the previous version, synthesized artifact URL,
`rollback_enabled=False`, and default strategy flags (Rolling). -/
def rollbackConfig (c : DeploymentConfig) (pv : String) : DeploymentConfig :=
  { application_name := c.application_name
    version := pv
    environment := c.environment
    artifact_url := "rollback://" ++ pv
    health_checks := c.health_checks
    rollback_enabled := false }

/-- The final record of a deploy whose health checks all pass (`t` = clock at entry). -/
def successRecord (c : DeploymentConfig) (t : Nat) : DeploymentRecord :=
  { id := generate_deployment_id c t
    config := c
    status := .success
    start_time := t + 1
    end_time := some (t + 2)
    logs := startLogs c ++ passLogs 0 c.health_checks
      ++ ["All health checks passed", "Deployment completed successfully"]
    error_message := none }

/-- The final record of a deploy that fails at health check `bad` after the
passing prefix `pre`, before any auto-rollback bookkeeping. -/
def failedRecord (c : DeploymentConfig) (t : Nat) (pre : List HealthCheck)
    (bad : HealthCheck) : DeploymentRecord :=
  { id := generate_deployment_id c t
    config := c
    status := .failed
    start_time := t + 1
    end_time := some (t + 2)
    logs := startLogs c ++ passLogs 0 pre
      ++ [checkLog pre.length bad, "Deployment failed: " ++ hcFailMsg bad]
    error_message := some (hcFailMsg bad) }

/-- Manager state after a fully successful deploy. -/
def successState (s : ManagerState) (c : DeploymentConfig) : ManagerState :=
  { heap := s.heap ++ [successRecord c s.clock]
    table := dictInsert (generate_deployment_id c s.clock) s.heap.length s.table
    environment_versions :=
      envSetL c.environment c.application_name c.version s.environment_versions
    clock := s.clock + 3 }

/-- Manager state after a failed deploy, before the auto-rollback step. -/
def failState (s : ManagerState) (c : DeploymentConfig) (pre : List HealthCheck)
    (bad : HealthCheck) : ManagerState :=
  { heap := s.heap ++ [failedRecord c s.clock pre bad]
    table := dictInsert (generate_deployment_id c s.clock) s.heap.length s.table
    environment_versions := s.environment_versions
    clock := s.clock + 3 }

/-! ### State-step lemmas -/

theorem recAt_at (s : ManagerState) (H : List DeploymentRecord) (x : DeploymentRecord)
    (rest : List DeploymentRecord) (hs : s.heap = H ++ x :: rest) :
    recAt s H.length = x := by
  unfold recAt
  rw [hs, getD_append_self]
  rfl

theorem modifyRec_at (s : ManagerState) (H : List DeploymentRecord) (x : DeploymentRecord)
    (rest : List DeploymentRecord) (f : DeploymentRecord → DeploymentRecord)
    (hs : s.heap = H ++ x :: rest) :
    modifyRec s H.length f = { s with heap := H ++ f x :: rest } := by
  unfold modifyRec
  rw [hs, listModify_append]

theorem addLog_at (s : ManagerState) (H : List DeploymentRecord) (x : DeploymentRecord)
    (rest : List DeploymentRecord) (msg : String) (hs : s.heap = H ++ x :: rest) :
    addLog s H.length msg = { s with heap := H ++ { x with logs := x.logs ++ [msg] } :: rest } := by
  unfold addLog
  exact modifyRec_at s H x rest _ hs

theorem recAt_lit (H : List DeploymentRecord) (x : DeploymentRecord)
    (rest : List DeploymentRecord) (tb : List (String × Nat))
    (ev : List (Environment × List (String × String))) (ck : Nat) :
    recAt { heap := H ++ x :: rest, table := tb, environment_versions := ev, clock := ck }
      H.length = x :=
  recAt_at _ H x rest rfl

theorem modifyRec_lit (H : List DeploymentRecord) (x : DeploymentRecord)
    (rest : List DeploymentRecord) (tb : List (String × Nat))
    (ev : List (Environment × List (String × String))) (ck : Nat)
    (f : DeploymentRecord → DeploymentRecord) :
    modifyRec { heap := H ++ x :: rest, table := tb, environment_versions := ev, clock := ck }
      H.length f =
      { heap := H ++ f x :: rest, table := tb, environment_versions := ev, clock := ck } :=
  modifyRec_at _ H x rest f rfl

theorem addLog_lit (H : List DeploymentRecord) (x : DeploymentRecord)
    (rest : List DeploymentRecord) (tb : List (String × Nat))
    (ev : List (Environment × List (String × String))) (ck : Nat) (msg : String) :
    addLog { heap := H ++ x :: rest, table := tb, environment_versions := ev, clock := ck }
      H.length msg =
      { heap := H ++ { x with logs := x.logs ++ [msg] } :: rest, table := tb,
        environment_versions := ev, clock := ck } :=
  addLog_at _ H x rest msg rfl

/-- When the dict's positions are exactly `0, …, n-1` in order, reading every
value back yields the heap itself. -/
theorem map_getD_range (l : List DeploymentRecord) (d : DeploymentRecord) :
    (List.range l.length).map (fun i => l.getD i d) = l := by
  induction l with
  | nil => rfl
  | cons x xs ih =>
      rw [List.length_cons, List.range_succ_eq_map, List.map_cons, List.map_map]
      have hhd : (x :: xs).getD 0 d = x := by simp [List.getD]
      rw [hhd]
      refine congrArg (x :: ·) ?_
      have hcomp : ∀ i ∈ List.range xs.length,
          ((fun i => (x :: xs).getD i d) ∘ Nat.succ) i = xs.getD i d := by
        intro i _
        simp [Function.comp, List.getD]
      calc (List.range xs.length).map ((fun i => (x :: xs).getD i d) ∘ Nat.succ)
          = (List.range xs.length).map (fun i => xs.getD i d) :=
            List.map_congr_left hcomp
        _ = xs := ih

/-! ### Effect lemmas: rollout phase and health-check phase -/

theorem execute_deployment_eq (s : ManagerState) (H : List DeploymentRecord)
    (x : DeploymentRecord) (rest : List DeploymentRecord) (hs : s.heap = H ++ x :: rest) :
    execute_deployment s H.length =
      { s with heap := H ++ { x with logs := x.logs ++ execLogs x.config } :: rest } := by
  obtain ⟨sh, st, se, sc⟩ := s
  dsimp only at hs
  subst hs
  simp only [execute_deployment, recAt_lit]
  by_cases hb : x.config.blue_green
  · rw [if_pos hb, addLog_lit, addLog_lit, addLog_lit]
    simp [execLogs, hb]
  · rw [if_neg hb]
    by_cases hc : canaryTruthy x.config.canary_percentage
    · rw [if_pos hc, addLog_lit, addLog_lit, addLog_lit]
      simp [execLogs, hb, hc]
    · rw [if_neg hc, addLog_lit, addLog_lit]
      simp [execLogs, hb, hc]

theorem run_health_checks_aux_pass (checks : List HealthCheck) :
    ∀ (i : Nat) (H : List DeploymentRecord) (x : DeploymentRecord)
      (rest : List DeploymentRecord) (tb : List (String × Nat))
      (ev : List (Environment × List (String × String))) (ck : Nat),
      (∀ h ∈ checks, h.result = true) →
      run_health_checks_aux H.length
          { heap := H ++ x :: rest, table := tb, environment_versions := ev, clock := ck }
          i checks =
        ({ heap := H ++
            { x with logs := x.logs ++ passLogs i checks ++ ["All health checks passed"] }
              :: rest, table := tb, environment_versions := ev, clock := ck }, none) := by
  induction checks with
  | nil =>
      intro i H x rest tb ev ck _
      simp only [run_health_checks_aux]
      rw [addLog_lit]
      simp [passLogs]
  | cons hc tl ih =>
      intro i H x rest tb ev ck hall
      have hhc : hc.result = true := hall hc (by simp)
      simp only [run_health_checks_aux]
      rw [addLog_lit]
      rw [show hc.check = true from hhc]
      simp only [if_true]
      rw [addLog_lit]
      rw [ih (i + 1) H _ rest tb ev ck (fun h hmem => hall h (by simp [hmem]))]
      simp [passLogs, checkLog, List.append_assoc]

theorem run_health_checks_aux_fail (pre : List HealthCheck) :
    ∀ (i : Nat) (H : List DeploymentRecord) (x : DeploymentRecord)
      (rest : List DeploymentRecord) (tb : List (String × Nat))
      (ev : List (Environment × List (String × String))) (ck : Nat)
      (bad : HealthCheck) (post : List HealthCheck),
      (∀ h ∈ pre, h.result = true) → bad.result = false →
      run_health_checks_aux H.length
          { heap := H ++ x :: rest, table := tb, environment_versions := ev, clock := ck }
          i (pre ++ bad :: post) =
        ({ heap := H ++
            { x with logs := x.logs ++ passLogs i pre ++ [checkLog (i + pre.length) bad] }
              :: rest, table := tb, environment_versions := ev, clock := ck },
          some (hcFailMsg bad)) := by
  induction pre with
  | nil =>
      intro i H x rest tb ev ck bad post _ hbad
      rw [List.nil_append]
      simp only [run_health_checks_aux]
      rw [addLog_lit]
      rw [show bad.check = false from hbad]
      simp [passLogs, checkLog, hcFailMsg]
  | cons hc tl ih =>
      intro i H x rest tb ev ck bad post hall hbad
      have hhc : hc.result = true := hall hc (by simp)
      rw [show (hc :: tl) ++ bad :: post = hc :: (tl ++ bad :: post) from rfl]
      simp only [run_health_checks_aux]
      rw [addLog_lit]
      rw [show hc.check = true from hhc]
      simp only [if_true]
      rw [addLog_lit]
      rw [ih (i + 1) H _ rest tb ev ck bad post (fun h hmem => hall h (by simp [hmem])) hbad]
      refine Prod.ext ?_ rfl
      simp [passLogs, checkLog, List.append_assoc]
      have harith : i + 1 + tl.length + 1 = i + (tl.length + 1) + 1 := by omega
      rw [harith]

theorem run_health_checks_pass (s : ManagerState) (H : List DeploymentRecord)
    (x : DeploymentRecord) (rest : List DeploymentRecord) (hs : s.heap = H ++ x :: rest)
    (hall : ∀ h ∈ x.config.health_checks, h.result = true) :
    run_health_checks s H.length =
      ({ s with heap := H ++
          { x with logs := x.logs ++ "Running health checks..." ::
              (passLogs 0 x.config.health_checks ++ ["All health checks passed"]) }
            :: rest }, none) := by
  obtain ⟨sh, st, se, sc⟩ := s
  dsimp only at hs
  subst hs
  unfold run_health_checks
  rw [recAt_lit, addLog_lit]
  rw [run_health_checks_aux_pass x.config.health_checks 0 H _ rest st se sc hall]
  simp [List.append_assoc]

theorem run_health_checks_fail (s : ManagerState) (H : List DeploymentRecord)
    (x : DeploymentRecord) (rest : List DeploymentRecord) (pre : List HealthCheck)
    (bad : HealthCheck) (post : List HealthCheck) (hs : s.heap = H ++ x :: rest)
    (hdec : x.config.health_checks = pre ++ bad :: post)
    (hpre : ∀ h ∈ pre, h.result = true) (hbad : bad.result = false) :
    run_health_checks s H.length =
      ({ s with heap := H ++
          { x with logs := x.logs ++ "Running health checks..." ::
              (passLogs 0 pre ++ [checkLog pre.length bad]) }
            :: rest }, some (hcFailMsg bad)) := by
  obtain ⟨sh, st, se, sc⟩ := s
  dsimp only at hs
  subst hs
  unfold run_health_checks
  rw [recAt_lit, addLog_lit, hdec]
  rw [run_health_checks_aux_fail pre 0 H _ rest st se sc bad post hpre hbad]
  simp [List.append_assoc]

theorem execute_deployment_lit (H : List DeploymentRecord) (x : DeploymentRecord)
    (rest : List DeploymentRecord) (tb : List (String × Nat))
    (ev : List (Environment × List (String × String))) (ck : Nat) :
    execute_deployment
        { heap := H ++ x :: rest, table := tb, environment_versions := ev, clock := ck }
        H.length =
      { heap := H ++ { x with logs := x.logs ++ execLogs x.config } :: rest, table := tb,
        environment_versions := ev, clock := ck } :=
  execute_deployment_eq _ H x rest rfl

theorem run_health_checks_pass_lit (H : List DeploymentRecord) (x : DeploymentRecord)
    (rest : List DeploymentRecord) (tb : List (String × Nat))
    (ev : List (Environment × List (String × String))) (ck : Nat)
    (hall : ∀ h ∈ x.config.health_checks, h.result = true) :
    run_health_checks
        { heap := H ++ x :: rest, table := tb, environment_versions := ev, clock := ck }
        H.length =
      ({ heap := H ++
          { x with logs := x.logs ++ "Running health checks..." ::
              (passLogs 0 x.config.health_checks ++ ["All health checks passed"]) }
            :: rest, table := tb, environment_versions := ev, clock := ck }, none) :=
  run_health_checks_pass _ H x rest rfl hall

theorem run_health_checks_fail_lit (H : List DeploymentRecord) (x : DeploymentRecord)
    (rest : List DeploymentRecord) (tb : List (String × Nat))
    (ev : List (Environment × List (String × String))) (ck : Nat)
    (pre : List HealthCheck) (bad : HealthCheck) (post : List HealthCheck)
    (hdec : x.config.health_checks = pre ++ bad :: post)
    (hpre : ∀ h ∈ pre, h.result = true) (hbad : bad.result = false) :
    run_health_checks
        { heap := H ++ x :: rest, table := tb, environment_versions := ev, clock := ck }
        H.length =
      ({ heap := H ++
          { x with logs := x.logs ++ "Running health checks..." ::
              (passLogs 0 pre ++ [checkLog pre.length bad]) }
            :: rest, table := tb, environment_versions := ev, clock := ck },
        some (hcFailMsg bad)) :=
  run_health_checks_fail _ H x rest pre bad post rfl hdec hpre hbad

/-! ### Effect lemmas: one whole `deploy` invocation -/

theorem deployBody_success (f : ManagerState → Nat → ManagerState) (s : ManagerState)
    (c : DeploymentConfig) (hall : ∀ h ∈ c.health_checks, h.result = true) :
    deployBody f s c = (successState s c, generate_deployment_id c s.clock) := by
  obtain ⟨sh, st, se, sc⟩ := s
  simp only [deployBody, tick]
  rw [addLog_lit]; dsimp only
  rw [modifyRec_lit]; dsimp only
  rw [addLog_lit]; dsimp only
  rw [execute_deployment_lit]; dsimp only
  rw [run_health_checks_pass_lit sh _ [] _ _ _ hall]
  dsimp only [tick, envSet, envSetL]
  rw [modifyRec_lit]; dsimp only
  rw [addLog_lit]; dsimp only
  simp [successState, successRecord, startLogs, envSetL, List.append_assoc]

theorem deployBody_failure (f : ManagerState → Nat → ManagerState) (s : ManagerState)
    (c : DeploymentConfig) (pre : List HealthCheck) (bad : HealthCheck)
    (post : List HealthCheck) (hdec : c.health_checks = pre ++ bad :: post)
    (hpre : ∀ h ∈ pre, h.result = true) (hbad : bad.result = false) :
    deployBody f s c =
      ((if c.rollback_enabled then f (failState s c pre bad) s.heap.length
        else failState s c pre bad), generate_deployment_id c s.clock) := by
  obtain ⟨sh, st, se, sc⟩ := s
  simp only [deployBody, tick]
  rw [addLog_lit]; dsimp only
  rw [modifyRec_lit]; dsimp only
  rw [addLog_lit]; dsimp only
  rw [execute_deployment_lit]; dsimp only
  rw [run_health_checks_fail_lit sh _ [] _ _ _ pre bad post hdec hpre hbad]
  dsimp only [tick]
  rw [modifyRec_lit]; dsimp only
  rw [addLog_lit]; dsimp only
  simp [failState, failedRecord, startLogs, List.append_assoc]

/-! ### Effect lemmas: `_auto_rollback` -/

theorem auto_rollback_no_target (d : ManagerState → DeploymentConfig → ManagerState × String)
    (s : ManagerState) (H : List DeploymentRecord) (x : DeploymentRecord)
    (rest : List DeploymentRecord) (hs : s.heap = H ++ x :: rest)
    (h : strTruthy (get_previous_version s x.config.application_name x.config.environment)
      = false) :
    auto_rollback d s H.length =
      { s with heap := H ++
          { x with logs := x.logs ++ ["No previous version found for rollback"] } :: rest } := by
  obtain ⟨sh, st, se, sc⟩ := s
  dsimp only at hs
  subst hs
  simp only [auto_rollback, recAt_lit]
  rw [h]
  simp only [Bool.false_eq_true, if_false]
  rw [addLog_lit]

theorem auto_rollback_target (d : ManagerState → DeploymentConfig → ManagerState × String)
    (s : ManagerState) (H : List DeploymentRecord) (x : DeploymentRecord)
    (rest : List DeploymentRecord) (pv : String) (hs : s.heap = H ++ x :: rest)
    (h : get_previous_version s x.config.application_name x.config.environment = some pv)
    (hpv : pv ≠ "") :
    auto_rollback d s H.length =
      (let s1 : ManagerState := { s with heap := H ++
          { x with logs := x.logs ++ ["Auto-rolling back to version " ++ pv] } :: rest }
       let res := d s1 (rollbackConfig x.config pv)
       modifyRec (addLog res.1 H.length ("Rollback deployment: " ++ res.2)) H.length
         fun r => { r with status := DeploymentStatus.rolled_back }) := by
  obtain ⟨sh, st, se, sc⟩ := s
  dsimp only at hs
  subst hs
  simp only [auto_rollback, recAt_lit]
  rw [h]
  rw [show strTruthy (some pv) = true from by simp [strTruthy, hpv]]
  simp only [if_true, Option.getD_some]
  rw [addLog_lit]
  rfl

/-! ### Recursion bound: the rollback continuation is irrelevant when
`rollback_enabled` is false, hence any fuel of at least 2 computes `deploy`. -/

theorem deployBody_rollbackFn_irrel (s : ManagerState) (c : DeploymentConfig)
    (hrb : c.rollback_enabled = false) (f g : ManagerState → Nat → ManagerState) :
    deployBody f s c = deployBody g s c := by
  simp only [deployBody, hrb, Bool.false_eq_true, if_false]

theorem auto_rollback_congr (f g : ManagerState → DeploymentConfig → ManagerState × String)
    (t : ManagerState) (ref : Nat)
    (h : ∀ (u : ManagerState) (c' : DeploymentConfig), c'.rollback_enabled = false →
      f u c' = g u c') :
    auto_rollback f t ref = auto_rollback g t ref := by
  simp only [auto_rollback]
  by_cases ht : strTruthy (get_previous_version t (recAt t ref).config.application_name
      (recAt t ref).config.environment) = true
  · simp only [ht, if_true]
    rw [h _ _ rfl]
  · simp [ht]

theorem deployFuel_norollback (n : Nat) (s : ManagerState) (c : DeploymentConfig)
    (hrb : c.rollback_enabled = false) : deployFuel (n + 1) s c = deployFuel 1 s c := by
  show deployBody (auto_rollback (deployFuel n)) s c
      = deployBody (auto_rollback (deployFuel 0)) s c
  exact deployBody_rollbackFn_irrel s c hrb _ _

theorem deployFuel_ge_two (n : Nat) (s : ManagerState) (c : DeploymentConfig) :
    deployFuel (n + 2) s c = deployFuel 2 s c := by
  show deployBody (auto_rollback (deployFuel (n + 1))) s c
      = deployBody (auto_rollback (deployFuel 1)) s c
  have har : auto_rollback (deployFuel (n + 1)) = auto_rollback (deployFuel 1) := by
    funext t ref
    exact auto_rollback_congr _ _ t ref fun u c' hrb => deployFuel_norollback n u c' hrb
  rw [har]

/-! ### The four `deploy` scenarios, in explicit form -/

/-- Final state of the scenario "health checks fail, auto-rollback runs but
finds no previous version": one record, failed, with the extra log line. -/
def noTargetState (s : ManagerState) (c : DeploymentConfig) (pre : List HealthCheck)
    (bad : HealthCheck) : ManagerState :=
  { heap := s.heap ++ [{ failedRecord c s.clock pre bad with
      logs := (failedRecord c s.clock pre bad).logs
        ++ ["No previous version found for rollback"] }]
    table := dictInsert (generate_deployment_id c s.clock) s.heap.length s.table
    environment_versions := s.environment_versions
    clock := s.clock + 3 }

/-- The final original record of a rolled-back deploy (`nid` is the id of the
nested rollback deployment). -/
def rolledBackRecord (c : DeploymentConfig) (t : Nat) (pre : List HealthCheck)
    (bad : HealthCheck) (pv nid : String) : DeploymentRecord :=
  { failedRecord c t pre bad with
    status := .rolled_back
    logs := (failedRecord c t pre bad).logs
      ++ ["Auto-rolling back to version " ++ pv, "Rollback deployment: " ++ nid] }

/-- Final state of the scenario "health checks fail, auto-rollback runs with
target version `pv`": the original record is rolled back, and a second record
for the rollback deploy exists — itself failed, because the rollback config
reuses the very health checks that failed. -/
def rollbackDoneState (s : ManagerState) (c : DeploymentConfig) (pre : List HealthCheck)
    (bad : HealthCheck) (pv : String) : ManagerState :=
  { heap := s.heap ++
      [rolledBackRecord c s.clock pre bad pv
          (generate_deployment_id (rollbackConfig c pv) (s.clock + 3)),
        failedRecord (rollbackConfig c pv) (s.clock + 3) pre bad]
    table := dictInsert (generate_deployment_id (rollbackConfig c pv) (s.clock + 3))
      (s.heap.length + 1)
      (dictInsert (generate_deployment_id c s.clock) s.heap.length s.table)
    environment_versions := s.environment_versions
    clock := s.clock + 6 }

theorem deploy_success_eq (s : ManagerState) (c : DeploymentConfig)
    (hall : ∀ h ∈ c.health_checks, h.result = true) :
    deploy s c = (successState s c, generate_deployment_id c s.clock) :=
  deployBody_success _ s c hall

theorem deploy_fail_norollback (s : ManagerState) (c : DeploymentConfig)
    (pre : List HealthCheck) (bad : HealthCheck) (post : List HealthCheck)
    (hdec : c.health_checks = pre ++ bad :: post) (hpre : ∀ h ∈ pre, h.result = true)
    (hbad : bad.result = false) (hrb : c.rollback_enabled = false) :
    deploy s c = (failState s c pre bad, generate_deployment_id c s.clock) := by
  show deployBody (auto_rollback (deployFuel 1)) s c = _
  rw [deployBody_failure _ s c pre bad post hdec hpre hbad]
  rw [hrb]
  simp only [Bool.false_eq_true, if_false]

theorem deploy_fail_no_target (s : ManagerState) (c : DeploymentConfig)
    (pre : List HealthCheck) (bad : HealthCheck) (post : List HealthCheck)
    (hdec : c.health_checks = pre ++ bad :: post) (hpre : ∀ h ∈ pre, h.result = true)
    (hbad : bad.result = false) (hrb : c.rollback_enabled = true)
    (hno : strTruthy (get_previous_version (failState s c pre bad)
      c.application_name c.environment) = false) :
    deploy s c = (noTargetState s c pre bad, generate_deployment_id c s.clock) := by
  show deployBody (auto_rollback (deployFuel 1)) s c = _
  rw [deployBody_failure _ s c pre bad post hdec hpre hbad]
  rw [hrb]
  simp only [if_true]
  rw [auto_rollback_no_target _ _ s.heap (failedRecord c s.clock pre bad) [] rfl hno]
  rfl

theorem deploy_fail_rollback (s : ManagerState) (c : DeploymentConfig)
    (pre : List HealthCheck) (bad : HealthCheck) (post : List HealthCheck) (pv : String)
    (hdec : c.health_checks = pre ++ bad :: post) (hpre : ∀ h ∈ pre, h.result = true)
    (hbad : bad.result = false) (hrb : c.rollback_enabled = true)
    (hpv : get_previous_version (failState s c pre bad)
      c.application_name c.environment = some pv)
    (hpv' : pv ≠ "") :
    deploy s c = (rollbackDoneState s c pre bad pv, generate_deployment_id c s.clock) := by
  show deployBody (auto_rollback (deployFuel 1)) s c = _
  rw [deployBody_failure _ s c pre bad post hdec hpre hbad]
  rw [hrb]
  simp only [if_true]
  rw [auto_rollback_target _ _ s.heap (failedRecord c s.clock pre bad) [] pv rfl hpv hpv']
  dsimp only [failState]
  rw [show (failedRecord c s.clock pre bad).config = c from rfl]
  rw [show ∀ u : ManagerState, deployFuel 1 u (rollbackConfig c pv)
      = deployBody (auto_rollback (deployFuel 0)) u (rollbackConfig c pv) from fun u => rfl]
  rw [deployBody_failure _ _ (rollbackConfig c pv) pre bad post hdec hpre hbad]
  rw [show (rollbackConfig c pv).rollback_enabled = false from rfl]
  simp only [Bool.false_eq_true, if_false]
  dsimp only [failState]
  rw [show ∀ (A : List DeploymentRecord) (x y : DeploymentRecord),
      (A ++ [x]) ++ [y] = A ++ x :: y :: [] from by intro A x y; simp]
  rw [addLog_lit, modifyRec_lit]
  simp only [rollbackDoneState, rolledBackRecord, rollbackConfig, failState, failedRecord]
  simp [List.append_assoc]

/-! ### Supporting lemmas for the claims -/

/-- Every health-check list either passes entirely or has a first failure. -/
theorem checks_cases (l : List HealthCheck) :
    (∀ h ∈ l, h.result = true) ∨
    ∃ pre bad post, l = pre ++ bad :: post ∧ (∀ h ∈ pre, h.result = true) ∧
      bad.result = false := by
  induction l with
  | nil => left; simp
  | cons hc tl ih =>
      cases hr : hc.result
      · right
        exact ⟨[], hc, tl, by simp, by simp, hr⟩
      · rcases ih with hall | ⟨pre, bad, post, hdec, hpre, hbad⟩
        · left
          intro h hm
          rcases List.mem_cons.mp hm with h1 | h1
          · exact h1 ▸ hr
          · exact hall h h1
        · right
          refine ⟨hc :: pre, bad, post, by simp [hdec], ?_, hbad⟩
          intro h hm
          rcases List.mem_cons.mp hm with h1 | h1
          · exact h1 ▸ hr
          · exact hpre h h1

theorem isSuccessFor_default (a : String) (e : Environment) :
    isSuccessFor a e defaultRecord = false := by
  simp [isSuccessFor, defaultRecord]

/-- If no record object is a success for the pair, the rollback-selection
algorithm finds no target (dict values are record objects or, out of range,
the placeholder). -/
theorem gpv_none_of_no_success (s : ManagerState) (a : String) (e : Environment)
    (h : ∀ r ∈ s.heap, isSuccessFor a e r = false) :
    get_previous_version s a e = none := by
  unfold get_previous_version
  have hfil : (valuesOf s).filter (isSuccessFor a e) = [] := by
    refine List.filter_eq_nil_iff.mpr ?_
    intro d hd
    simp only [valuesOf, List.mem_map] at hd
    rcases hd with ⟨kv, _, hdv⟩
    rcases getD_mem_or_default s.heap kv.2 defaultRecord with hm | hm
    · rw [← hdv]
      simp only [h _ hm]
      exact Bool.false_ne_true
    · rw [← hdv, hm]
      simp [isSuccessFor_default]
  rw [hfil]
  simp

/-! ### C5: fail-fast health checks -/

/-- C5.  During a deploy, the health-check phase runs the declared checks in
order; with a passing prefix `pre` and first failing check `bad`, it raises
exactly the failure message naming `bad.endpoint`, and the log trail it
leaves on the record is exactly the phase header, the pass logs of `pre`,
and the probe log of `bad`: no check after `bad` (in `post`) is executed,
and the phase aborts the moment `bad` fails. -/
theorem C5_health_checks_fail_fast (s : ManagerState) (H : List DeploymentRecord)
    (x : DeploymentRecord) (rest : List DeploymentRecord) (pre : List HealthCheck)
    (bad : HealthCheck) (post : List HealthCheck) (hs : s.heap = H ++ x :: rest)
    (hdec : x.config.health_checks = pre ++ bad :: post)
    (hpre : ∀ h ∈ pre, h.result = true) (hbad : bad.result = false) :
    run_health_checks s H.length =
      ({ s with heap := H ++
          { x with logs := x.logs ++ "Running health checks..." ::
              (passLogs 0 pre ++ [checkLog pre.length bad]) }
            :: rest }, some (hcFailMsg bad)) :=
  run_health_checks_fail s H x rest pre bad post hs hdec hpre hbad

def hcPass : HealthCheck := { endpoint := "http://ok/health" }

def hcDead : HealthCheck := { endpoint := "http://dead/health", result := false }

def wRec : DeploymentRecord :=
  { id := "r0"
    config :=
      { application_name := "web", version := "1.0.0", environment := .staging
        artifact_url := "s3://a", health_checks := [hcPass, hcDead, hcPass] }
    status := .in_progress
    start_time := 1 }

def wState : ManagerState :=
  { heap := [wRec], table := [("r0", 0)]
    environment_versions := [(.development, []), (.staging, []), (.production, [])]
    clock := 2 }

theorem C5_health_checks_fail_fast_witness :
    wState.heap = [] ++ wRec :: [] ∧
    wRec.config.health_checks = [hcPass] ++ hcDead :: [hcPass] ∧
    (∀ h ∈ [hcPass], h.result = true) ∧ hcDead.result = false ∧
    run_health_checks wState (List.length ([] : List DeploymentRecord)) =
      ({ wState with heap := [] ++
          { wRec with logs := wRec.logs ++ "Running health checks..." ::
              (passLogs 0 [hcPass] ++ [checkLog (List.length [hcPass]) hcDead]) }
            :: [] }, some (hcFailMsg hcDead)) :=
  ⟨by decide, by decide, by decide, by decide,
    C5_health_checks_fail_fast wState [] wRec [] [hcPass] hcDead [hcPass]
      (by decide) (by decide) (by decide) (by decide)⟩

/-! ### C10: strategy precedence in `_execute_deployment` -/

/-- C10.  The rollout procedure is selected by the source's `if/elif/else`
precedence: `blue_green` wins even when `canary_percentage` is also set;
otherwise a set, non-zero canary percentage selects the canary procedure;
otherwise (including `canary_percentage == 0`, which is falsy in Python) the
rolling procedure runs.  Each branch is identified by the log entries it
writes to the deployment record. -/
theorem C10_strategy_precedence (s : ManagerState) (H : List DeploymentRecord)
    (x : DeploymentRecord) (rest : List DeploymentRecord) (hs : s.heap = H ++ x :: rest) :
    (x.config.blue_green = true →
      execute_deployment s H.length = { s with heap := H ++
        { x with logs := x.logs ++
          ["Executing blue-green deployment", "Blue environment ready, switching traffic",
           "Application deployed successfully"] } :: rest }) ∧
    (x.config.blue_green = false → ∀ n : Int, x.config.canary_percentage = some n → n ≠ 0 →
      execute_deployment s H.length = { s with heap := H ++
        { x with logs := x.logs ++
          ["Starting canary deployment with " ++ toString n ++ "% traffic",
           "Canary deployment successful, rolling out to 100%",
           "Application deployed successfully"] } :: rest }) ∧
    (x.config.blue_green = false →
      (x.config.canary_percentage = none ∨ x.config.canary_percentage = some 0) →
      execute_deployment s H.length = { s with heap := H ++
        { x with logs := x.logs ++
          ["Executing rolling deployment", "Application deployed successfully"] } :: rest }) := by
  refine ⟨?_, ?_, ?_⟩
  · intro hb
    rw [execute_deployment_eq s H x rest hs]
    simp [execLogs, hb]
  · intro hb n hn hnz
    rw [execute_deployment_eq s H x rest hs]
    simp [execLogs, hb, hn, canaryTruthy, canaryStr, hnz]
  · intro hb hc
    rw [execute_deployment_eq s H x rest hs]
    rcases hc with hc | hc <;> simp [execLogs, hb, hc, canaryTruthy]

def bgRec : DeploymentRecord :=
  { id := "r1"
    config :=
      { application_name := "web", version := "1.0.0", environment := .production
        artifact_url := "s3://a", health_checks := [], blue_green := true
        canary_percentage := some 10 }
    status := .in_progress
    start_time := 1 }

def bgState : ManagerState :=
  { heap := [bgRec], table := [("r1", 0)]
    environment_versions := [(.development, []), (.staging, []), (.production, [])]
    clock := 2 }

theorem C10_strategy_precedence_witness :
    bgRec.config.blue_green = true ∧
    bgRec.config.canary_percentage = some 10 ∧
    execute_deployment bgState (List.length ([] : List DeploymentRecord)) =
      { bgState with heap := [] ++
        { bgRec with logs := bgRec.logs ++
          ["Executing blue-green deployment", "Blue environment ready, switching traffic",
           "Application deployed successfully"] } :: [] } :=
  ⟨by decide, by decide,
    (C10_strategy_precedence bgState [] bgRec [] (by decide)).1 (by decide)⟩

/-! ### C6: manual rollback -/

/-- The config `rollback()` builds when a target version was resolved. -/
def manualRollbackConfig (app : String) (env : Environment) (tv : String) :
    DeploymentConfig :=
  { application_name := app
    version := tv
    environment := env
    artifact_url := "rollback://" ++ tv
    health_checks := [{ endpoint := "http://" ++ app ++ "/health" }]
    rollback_enabled := false }

/-- A record object that would block rollback has non-success status for the
pair; a deploy-created failed record in particular. -/
theorem isSuccessFor_failedRecord (a : String) (e : Environment) (c : DeploymentConfig)
    (t : Nat) (pre : List HealthCheck) (bad : HealthCheck) :
    isSuccessFor a e (failedRecord c t pre bad) = false := by
  simp [isSuccessFor, failedRecord]

theorem getD_self_append (A : List DeploymentRecord) (x : DeploymentRecord)
    (rest : List DeploymentRecord) (d : DeploymentRecord) :
    (A ++ x :: rest).getD A.length d = x := by
  rw [getD_append_self]
  rfl

theorem getD_self_append1 (A : List DeploymentRecord) (x y : DeploymentRecord)
    (rest : List DeploymentRecord) (d : DeploymentRecord) :
    (A ++ x :: y :: rest).getD (A.length + 1) d = y := by
  rw [getD_append_add]
  rfl

/-- C6.  A manual `rollback()` with no explicit target: when no record of
status success exists for the pair, the `ValueError` propagates (`none`) and
the manager state is returned untouched — no record is created; when the
algorithm resolves a (non-empty, per the spec's non-empty-version invariant)
target version `tv`, the call delegates to `deploy` with the synthesized
rollback config and returns the id of that new rollback deployment. -/
theorem C6_manual_rollback (s : ManagerState) (app : String) (env : Environment) :
    ((∀ r ∈ s.heap, isSuccessFor app env r = false) →
      rollback s app env none = (s, none)) ∧
    (∀ tv, get_previous_version s app env = some tv → tv ≠ "" →
      rollback s app env none =
        ((deploy s (manualRollbackConfig app env tv)).1,
          some (deploy s (manualRollbackConfig app env tv)).2)) := by
  constructor
  · intro h
    have hg := gpv_none_of_no_success s app env h
    simp [rollback, hg, strTruthy]
  · intro tv htv hne
    simp only [rollback, htv]
    rw [show strTruthy (some tv) = true from by simp [strTruthy, hne]]
    simp only [if_true, Option.getD_some]
    rfl

theorem C6_manual_rollback_witness :
    (∀ r ∈ initManager.heap, isSuccessFor "web" Environment.production r = false) ∧
    rollback initManager "web" Environment.production none = (initManager, none) :=
  ⟨by decide,
    (C6_manual_rollback initManager "web" Environment.production).1 (by decide)⟩

/-! ### C1: status after auto-rollback -/

def cGoodC1 : DeploymentConfig :=
  { application_name := "web", version := "1.0.0", environment := .production
    artifact_url := "s3://good", health_checks := [hcPass] }

def cBadC1 : DeploymentConfig :=
  { application_name := "web", version := "1.1.0", environment := .production
    artifact_url := "s3://bad", health_checks := [hcDead] }

/-- C1 counterexample.  Deploy v1.0.0 successfully, then deploy v1.1.0 whose
health check fails with rollback enabled.  The auto-rollback's nested deploy
reuses the failing health checks, so the rollback deployment itself ends with
status `failed` — yet the original record's status is set to `rolled_back`
anyway: `_auto_rollback` never consults the nested deploy's outcome.  This
contradicts the claim that the original stays `failed` when the rollback
deployment fails. -/
theorem C1_counterexample :
    ((run [Op.deployOp cGoodC1, Op.deployOp cBadC1]).heap.getD 1 defaultRecord).status
        = DeploymentStatus.rolled_back ∧
    ((run [Op.deployOp cGoodC1, Op.deployOp cBadC1]).heap.getD 2 defaultRecord).status
        = DeploymentStatus.failed ∧
    ((run [Op.deployOp cGoodC1, Op.deployOp cBadC1]).heap.getD 2
        defaultRecord).config.version = "1.0.0" ∧
    ((run [Op.deployOp cGoodC1, Op.deployOp cBadC1]).heap.getD 2
        defaultRecord).config.rollback_enabled = false := by
  decide

/-- C1 (amended).  Whenever a deploy fails in the health-check phase with
rollback enabled and the rollback-selection algorithm resolves a (truthy)
previous version, the original record's status is set to `rolled_back`
unconditionally — and the nested rollback deployment, which reuses the
failing config's health checks, itself ends with status `failed`. -/
theorem C1_rollback_status_amended (s : ManagerState) (c : DeploymentConfig)
    (pre : List HealthCheck) (bad : HealthCheck) (post : List HealthCheck) (pv : String)
    (hdec : c.health_checks = pre ++ bad :: post) (hpre : ∀ h ∈ pre, h.result = true)
    (hbad : bad.result = false) (hrb : c.rollback_enabled = true)
    (hpv : get_previous_version (failState s c pre bad)
      c.application_name c.environment = some pv)
    (hpv' : pv ≠ "") :
    ((deploy s c).1.heap.getD s.heap.length defaultRecord).status
        = DeploymentStatus.rolled_back ∧
    ((deploy s c).1.heap.getD (s.heap.length + 1) defaultRecord).status
        = DeploymentStatus.failed := by
  have h := deploy_fail_rollback s c pre bad post pv hdec hpre hbad hrb hpv hpv'
  rw [h]
  dsimp only [rollbackDoneState]
  rw [getD_self_append, getD_self_append1]
  exact ⟨rfl, rfl⟩

theorem C1_rollback_status_amended_witness :
    cBadC1.health_checks = [] ++ hcDead :: [] ∧
    cBadC1.rollback_enabled = true ∧
    get_previous_version
        (failState (run [Op.deployOp cGoodC1]) cBadC1 [] hcDead)
        cBadC1.application_name cBadC1.environment = some "1.0.0" ∧
    ((deploy (run [Op.deployOp cGoodC1]) cBadC1).1.heap.getD
        (run [Op.deployOp cGoodC1]).heap.length defaultRecord).status
      = DeploymentStatus.rolled_back ∧
    ((deploy (run [Op.deployOp cGoodC1]) cBadC1).1.heap.getD
        ((run [Op.deployOp cGoodC1]).heap.length + 1) defaultRecord).status
      = DeploymentStatus.failed := by
  refine ⟨by decide, by decide, by decide, ?_⟩
  exact C1_rollback_status_amended (run [Op.deployOp cGoodC1]) cBadC1 [] hcDead [] "1.0.0"
    (by decide) (by decide) (by decide) (by decide) (by decide) (by decide)

/-! ### C3: deploy absorbs rollout/health-check failures -/

/-- C3.  A deploy whose health-check phase fails still returns normally with
the generated deployment id (the embedding of `deploy` is a total function —
the source's `try/except` converts the raised failure into record state): the
record of the call ends with status `failed` or (after auto-rollback)
`rolled_back`, its `end_time` is set, and its `error_message` carries the
health-check failure text.  When rollback is enabled but no success record
exists for the pair, the missing rollback target is absorbed: the record
stays `failed` and the "No previous version found for rollback" log line is
appended, and nothing propagates to the caller. -/
theorem C3_deploy_absorbs_failures (s : ManagerState) (c : DeploymentConfig)
    (pre : List HealthCheck) (bad : HealthCheck) (post : List HealthCheck)
    (hdec : c.health_checks = pre ++ bad :: post) (hpre : ∀ h ∈ pre, h.result = true)
    (hbad : bad.result = false) :
    (deploy s c).2 = generate_deployment_id c s.clock ∧
    (((deploy s c).1.heap.getD s.heap.length defaultRecord).status = DeploymentStatus.failed ∨
      ((deploy s c).1.heap.getD s.heap.length defaultRecord).status
        = DeploymentStatus.rolled_back) ∧
    ((deploy s c).1.heap.getD s.heap.length defaultRecord).end_time = some (s.clock + 2) ∧
    ((deploy s c).1.heap.getD s.heap.length defaultRecord).error_message
      = some (hcFailMsg bad) ∧
    (c.rollback_enabled = true →
      (∀ rr ∈ s.heap, isSuccessFor c.application_name c.environment rr = false) →
      ((deploy s c).1.heap.getD s.heap.length defaultRecord).status
          = DeploymentStatus.failed ∧
      "No previous version found for rollback" ∈
        ((deploy s c).1.heap.getD s.heap.length defaultRecord).logs) := by
  cases hrbe : c.rollback_enabled
  · have h := deploy_fail_norollback s c pre bad post hdec hpre hbad hrbe
    rw [h]
    dsimp only [failState]
    rw [getD_self_append]
    refine ⟨rfl, Or.inl rfl, rfl, rfl, ?_⟩
    intro h1
    exact absurd h1 (by simp)
  · cases htr : strTruthy (get_previous_version (failState s c pre bad)
        c.application_name c.environment)
    · have h := deploy_fail_no_target s c pre bad post hdec hpre hbad hrbe htr
      rw [h]
      dsimp only [noTargetState]
      rw [getD_self_append]
      refine ⟨rfl, Or.inl rfl, rfl, rfl, ?_⟩
      intro _ _
      exact ⟨rfl, by simp⟩
    · have hex : ∃ pv, get_previous_version (failState s c pre bad)
          c.application_name c.environment = some pv ∧ pv ≠ "" := by
        cases hg : get_previous_version (failState s c pre bad)
            c.application_name c.environment with
        | none => rw [hg] at htr; simp [strTruthy] at htr
        | some pv =>
            refine ⟨pv, rfl, ?_⟩
            rw [hg] at htr
            simpa [strTruthy] using htr
      rcases hex with ⟨pv, hg, hne⟩
      have h := deploy_fail_rollback s c pre bad post pv hdec hpre hbad hrbe hg hne
      rw [h]
      dsimp only [rollbackDoneState]
      rw [getD_self_append]
      refine ⟨rfl, Or.inr rfl, rfl, rfl, ?_⟩
      intro _ hnone
      exfalso
      have hnone' : ∀ rr ∈ (failState s c pre bad).heap,
          isSuccessFor c.application_name c.environment rr = false := by
        intro rr hin
        rcases List.mem_append.mp hin with hin | hin
        · exact hnone rr hin
        · rcases List.mem_singleton.mp hin with h
          rw [h]
          exact isSuccessFor_failedRecord _ _ _ _ _ _
      rw [gpv_none_of_no_success _ _ _ hnone'] at hg
      exact Option.noConfusion hg

theorem C3_deploy_absorbs_failures_witness :
    cBadC1.health_checks = [] ++ hcDead :: [] ∧ hcDead.result = false ∧
    (deploy initManager cBadC1).2 = generate_deployment_id cBadC1 initManager.clock ∧
    (((deploy initManager cBadC1).1.heap.getD initManager.heap.length defaultRecord).status
        = DeploymentStatus.failed ∨
      ((deploy initManager cBadC1).1.heap.getD initManager.heap.length defaultRecord).status
        = DeploymentStatus.rolled_back) ∧
    ((deploy initManager cBadC1).1.heap.getD initManager.heap.length
        defaultRecord).error_message = some (hcFailMsg hcDead) ∧
    "No previous version found for rollback" ∈
      ((deploy initManager cBadC1).1.heap.getD initManager.heap.length defaultRecord).logs := by
  have h := C3_deploy_absorbs_failures initManager cBadC1 [] hcDead []
    (by decide) (by decide) (by decide)
  exact ⟨by decide, by decide, h.1, h.2.1, h.2.2.2.1,
    (h.2.2.2.2 (by decide) (by decide)).2⟩

/-! ### C4: rollback configs cannot recurse; bounded recursion depth -/

/-- C4.  (i) `deployFuel` is fuel-insensitive beyond 2: the recursion depth of
`deploy` is at most 1, because every config the rollback path constructs has
`rollback_enabled = false` and therefore never reaches the rollback branch.
(ii) A failing deploy with rollback enabled and a resolvable target adds
exactly two records: its own, and one rollback record whose config is the
`rollbackConfig` — `rollback_enabled = false` and default (Rolling) strategy
flags, i.e. exactly one additional record with `rollback_enabled = false`. -/
theorem C4_rollback_recursion_bounded :
    (∀ (n : Nat) (s : ManagerState) (c : DeploymentConfig),
      deployFuel (n + 2) s c = deployFuel 2 s c) ∧
    (∀ (s : ManagerState) (c : DeploymentConfig) (pre : List HealthCheck)
        (bad : HealthCheck) (post : List HealthCheck) (pv : String),
      c.health_checks = pre ++ bad :: post → (∀ h ∈ pre, h.result = true) →
      bad.result = false → c.rollback_enabled = true →
      get_previous_version (failState s c pre bad)
        c.application_name c.environment = some pv →
      pv ≠ "" →
      ∃ orig rb, (deploy s c).1.heap = s.heap ++ [orig, rb] ∧
        orig.config = c ∧ orig.status = DeploymentStatus.rolled_back ∧
        rb.config = rollbackConfig c pv ∧
        rb.config.rollback_enabled = false ∧ rb.config.blue_green = false ∧
        rb.config.canary_percentage = none ∧ rb.config.version = pv) := by
  constructor
  · exact deployFuel_ge_two
  · intro s c pre bad post pv hdec hpre hbad hrb hpv hpv'
    have h := deploy_fail_rollback s c pre bad post pv hdec hpre hbad hrb hpv hpv'
    rw [h]
    exact ⟨rolledBackRecord c s.clock pre bad pv
        (generate_deployment_id (rollbackConfig c pv) (s.clock + 3)),
      failedRecord (rollbackConfig c pv) (s.clock + 3) pre bad,
      rfl, rfl, rfl, rfl, rfl, rfl, rfl, rfl⟩

theorem C4_rollback_recursion_bounded_witness :
    deployFuel 7 initManager cBadC1 = deployFuel 2 initManager cBadC1 ∧
    (∃ orig rb,
      (deploy (run [Op.deployOp cGoodC1]) cBadC1).1.heap
        = (run [Op.deployOp cGoodC1]).heap ++ [orig, rb] ∧
      orig.config = cBadC1 ∧ orig.status = DeploymentStatus.rolled_back ∧
      rb.config = rollbackConfig cBadC1 "1.0.0" ∧
      rb.config.rollback_enabled = false ∧ rb.config.blue_green = false ∧
      rb.config.canary_percentage = none ∧ rb.config.version = "1.0.0") :=
  ⟨C4_rollback_recursion_bounded.1 5 initManager cBadC1,
    C4_rollback_recursion_bounded.2 (run [Op.deployOp cGoodC1]) cBadC1 [] hcDead [] "1.0.0"
      (by decide) (by decide) (by decide) (by decide) (by decide) (by decide)⟩

/-! ### C9: export structure -/

def lookupField (l : List (String × JVal)) (k : String) : Option JVal :=
  (l.find? (fun p => p.1 = k)).map (·.2)

/-- C9.  The export is an object with exactly the top-level keys
`deployments`, `environment_versions` and `exported_at`; every record in the
table appears in the `deployments` array as an object with exactly the nine
required fields in order, `environment` and `status` rendered through the
specified enum strings, `end_time`/`error_message` null when absent. -/
theorem C9_export_fields (s : ManagerState) (r : DeploymentRecord) (hr : r ∈ valuesOf s) :
    (∃ deps envs ts, export_deployment_history s = JVal.jobj
        [("deployments", JVal.jarr deps), ("environment_versions", envs),
         ("exported_at", JVal.jstr ts)] ∧
      JVal.jobj (to_dict r) ∈ deps) ∧
    (to_dict r).map Prod.fst =
      ["id", "application_name", "version", "environment", "status", "start_time",
       "end_time", "logs", "error_message"] ∧
    lookupField (to_dict r) "id" = some (JVal.jstr r.id) ∧
    lookupField (to_dict r) "application_name"
      = some (JVal.jstr r.config.application_name) ∧
    lookupField (to_dict r) "version" = some (JVal.jstr r.config.version) ∧
    lookupField (to_dict r) "environment"
      = some (JVal.jstr r.config.environment.value) ∧
    (r.config.environment.value = "development" ∨
      r.config.environment.value = "staging" ∨
      r.config.environment.value = "production") ∧
    lookupField (to_dict r) "status" = some (JVal.jstr r.status.value) ∧
    (r.status.value = "pending" ∨ r.status.value = "in_progress" ∨
      r.status.value = "success" ∨ r.status.value = "failed" ∨
      r.status.value = "rolled_back") ∧
    lookupField (to_dict r) "start_time" = some (JVal.jstr (isoStr r.start_time)) ∧
    (r.end_time = none → lookupField (to_dict r) "end_time" = some JVal.jnull) ∧
    (∀ t, r.end_time = some t →
      lookupField (to_dict r) "end_time" = some (JVal.jstr (isoStr t))) ∧
    lookupField (to_dict r) "logs" = some (JVal.jarr (r.logs.map JVal.jstr)) ∧
    (r.error_message = none →
      lookupField (to_dict r) "error_message" = some JVal.jnull) ∧
    (∀ m, r.error_message = some m →
      lookupField (to_dict r) "error_message" = some (JVal.jstr m)) := by
  refine ⟨?_, rfl, rfl, rfl, rfl, rfl, ?_, rfl, ?_, rfl, ?_, ?_, rfl, ?_, ?_⟩
  · refine ⟨(valuesOf s).map fun d => JVal.jobj (to_dict d), _, _, rfl, ?_⟩
    exact List.mem_map.mpr ⟨r, hr, rfl⟩
  · cases r.config.environment <;> simp [Environment.value]
  · cases r.status <;> simp [DeploymentStatus.value]
  · intro ht
    simp [to_dict, lookupField, List.find?, optIso, ht]
  · intro t ht
    simp [to_dict, lookupField, List.find?, optIso, ht]
  · intro hm
    simp [to_dict, lookupField, List.find?, hm]
  · intro m hm
    simp [to_dict, lookupField, List.find?, hm]

theorem C9_export_fields_witness :
    wRec ∈ valuesOf wState ∧
    (∃ deps envs ts, export_deployment_history wState = JVal.jobj
        [("deployments", JVal.jarr deps), ("environment_versions", envs),
         ("exported_at", JVal.jstr ts)] ∧
      JVal.jobj (to_dict wRec) ∈ deps) ∧
    (to_dict wRec).map Prod.fst =
      ["id", "application_name", "version", "environment", "status", "start_time",
       "end_time", "logs", "error_message"] ∧
    lookupField (to_dict wRec) "end_time" = some JVal.jnull := by
  have h := C9_export_fields wState wRec (by decide)
  exact ⟨by decide, h.1, h.2.1, h.2.2.2.2.2.2.2.2.2.2.1 rfl⟩

/-! ### C8: list_deployments -/

/-- The filter actually applied by `list_deployments`: a supplied non-empty
application name must match; an empty-string application filter is falsy in
Python (`if app_name:`) and is skipped; a supplied environment must match. -/
def matchesFilters (app_name : Option String) (environment : Option Environment)
    (d : DeploymentRecord) : Bool :=
  (match app_name with
   | some a => if a = "" then true else d.config.application_name = a
   | none => true) &&
  (match environment with
   | some e => d.config.environment = e
   | none => true)

theorem insertByStartDesc_perm (r : DeploymentRecord) (l : List DeploymentRecord) :
    (insertByStartDesc r l).Perm (r :: l) := by
  induction l with
  | nil => exact List.Perm.refl _
  | cons x xs ih =>
      unfold insertByStartDesc
      by_cases h : r.start_time < x.start_time
      · rw [if_pos h]
        exact (ih.cons x).trans (List.Perm.swap r x xs)
      · rw [if_neg h]

theorem sortByStartDesc_perm (l : List DeploymentRecord) : (sortByStartDesc l).Perm l := by
  induction l with
  | nil => exact List.Perm.refl _
  | cons x xs ih =>
      unfold sortByStartDesc
      exact (insertByStartDesc_perm x (sortByStartDesc xs)).trans (ih.cons x)

theorem insertByStartDesc_mem (r y : DeploymentRecord) (l : List DeploymentRecord)
    (h : y ∈ insertByStartDesc r l) : y = r ∨ y ∈ l := by
  have h1 : y ∈ r :: l := (insertByStartDesc_perm r l).mem_iff.mp h
  exact List.mem_cons.mp h1

theorem insertByStartDesc_sorted (r : DeploymentRecord) (l : List DeploymentRecord)
    (h : l.Pairwise fun a b => b.start_time ≤ a.start_time) :
    (insertByStartDesc r l).Pairwise fun a b => b.start_time ≤ a.start_time := by
  induction l with
  | nil => simp [insertByStartDesc]
  | cons x xs ih =>
      unfold insertByStartDesc
      rcases List.pairwise_cons.mp h with ⟨hx, hxs⟩
      by_cases hlt : r.start_time < x.start_time
      · rw [if_pos hlt]
        refine List.pairwise_cons.mpr ⟨?_, ih hxs⟩
        intro y hy
        rcases insertByStartDesc_mem r y xs hy with h1 | h1
        · exact h1 ▸ Nat.le_of_lt hlt
        · exact hx y h1
      · rw [if_neg hlt]
        refine List.pairwise_cons.mpr ⟨?_, h⟩
        intro y hy
        rcases List.mem_cons.mp hy with h1 | h1
        · exact h1 ▸ Nat.le_of_not_lt hlt
        · exact Nat.le_trans (hx y h1) (Nat.le_of_not_lt hlt)

theorem sortByStartDesc_sorted (l : List DeploymentRecord) :
    (sortByStartDesc l).Pairwise fun a b => b.start_time ≤ a.start_time := by
  induction l with
  | nil => simp [sortByStartDesc]
  | cons x xs ih => exact insertByStartDesc_sorted x (sortByStartDesc xs) ih

theorem list_deployments_eq_sorted_filter (s : ManagerState) (app_name : Option String)
    (environment : Option Environment) :
    list_deployments s app_name environment =
      sortByStartDesc ((valuesOf s).filter (matchesFilters app_name environment)) := by
  unfold list_deployments
  refine congrArg sortByStartDesc ?_
  cases app_name with
  | none =>
      cases environment with
      | none =>
          exact (List.filter_eq_self.mpr fun d _ => by simp [matchesFilters]).symm
      | some e =>
          exact List.filter_congr fun d _ => by simp [matchesFilters]
  | some a =>
      by_cases ha : a = ""
      · subst ha
        cases environment with
        | none =>
            simp only [if_pos rfl]
            exact (List.filter_eq_self.mpr fun d _ => by simp [matchesFilters]).symm
        | some e =>
            simp only [if_pos rfl]
            exact List.filter_congr fun d _ => by simp [matchesFilters]
      · cases environment with
        | none =>
            simp only [if_neg ha]
            exact List.filter_congr fun d _ => by simp [matchesFilters, ha]
        | some e =>
            simp only [if_neg ha, List.filter_filter]
            exact List.filter_congr fun d _ => by
              simp [matchesFilters, ha, Bool.and_comm]

/-- C8 counterexample.  `list_deployments` with the supplied application-name
filter `""` ignores the filter (Python truthiness of `if app_name:`): it
returns the "web" record even though no record matches the supplied filter,
contradicting "returns exactly the records whose config matches every
supplied filter". -/
theorem C8_counterexample :
    (∀ r ∈ valuesOf (run [Op.deployOp cGoodC1]), r.config.application_name ≠ "") ∧
    (list_deployments (run [Op.deployOp cGoodC1]) (some "") none).map
        (fun r => r.config.application_name) = ["web"] := by
  decide

/-- C8 (amended).  For every combination of optional filters,
`list_deployments` returns exactly (as a multiset) the records whose config
matches every supplied *effective* filter — where an empty-string application
filter is treated as absent, Python truthiness — ordered by `start_time`
descending.  The embedding is a pure function of the state: the record table
and version map are untouched. -/
theorem C8_list_deployments_amended (s : ManagerState) (app_name : Option String)
    (environment : Option Environment) :
    (list_deployments s app_name environment).Perm
      ((valuesOf s).filter (matchesFilters app_name environment)) ∧
    (list_deployments s app_name environment).Pairwise
      (fun a b => b.start_time ≤ a.start_time) := by
  rw [list_deployments_eq_sorted_filter]
  exact ⟨sortByStartDesc_perm _, sortByStartDesc_sorted _⟩

/-! ### C2: version-map consistency — invariants -/

/-- Versions of the success records for a pair, in record-creation order. -/
def successVersions (l : List DeploymentRecord) (app : String) (env : Environment) :
    List String :=
  (l.filter (isSuccessFor app env)).map fun d => d.config.version

/-- Every record's start time is in the manager's past. -/
def clockDom (s : ManagerState) : Prop := ∀ r ∈ s.heap, r.start_time < s.clock

/-- Record start times are strictly increasing in creation order. -/
def timesMono (s : ManagerState) : Prop :=
  s.heap.Pairwise fun a b => a.start_time < b.start_time

/-- The version map always holds exactly the three environment keys. -/
def envKeysOk (s : ManagerState) : Prop :=
  s.environment_versions.map Prod.fst =
    [Environment.development, Environment.staging, Environment.production]

/-- The version map agrees with the latest success record of every pair. -/
def mapConsistent (s : ManagerState) : Prop :=
  ∀ env app, envLookup s env app = (successVersions s.heap app env).getLast?

def INV (s : ManagerState) : Prop :=
  clockDom s ∧ timesMono s ∧ envKeysOk s ∧ mapConsistent s

theorem assocSet_find_self (k : String) (v : String) (l : List (String × String)) :
    (assocSet k v l).find? (fun q => q.1 = k) = some (k, v) := by
  induction l with
  | nil => simp [assocSet, List.find?]
  | cons p rest ih =>
      by_cases hp : p.1 = k
      · simp [assocSet, hp, List.find?]
      · simp [assocSet, hp, List.find?, ih]

theorem assocSet_find_ne (k k' : String) (v : String) (l : List (String × String))
    (h : k' ≠ k) :
    (assocSet k v l).find? (fun q => q.1 = k') = l.find? (fun q => q.1 = k') := by
  have hkk : ¬(k = k') := fun hh => h hh.symm
  induction l with
  | nil => simp [assocSet, List.find?, hkk]
  | cons p rest ih =>
      by_cases hp : p.1 = k
      · have hne : ¬(p.1 = k') := by rw [hp]; exact hkk
        simp [assocSet, hp, List.find?, hkk, hne]
      · by_cases hk' : p.1 = k'
        · simp [assocSet, hp, List.find?, hk', h]
        · simp [assocSet, hp, List.find?, hk', ih]

theorem envSetL_fst (env : Environment) (app v : String)
    (p : Environment × List (String × String)) :
    ((fun p => if p.1 = env then (p.1, assocSet app v p.2) else p) p).1 = p.1 := by
  by_cases h : p.1 = env <;> simp [h]

theorem envKeysOk_envSet (s : ManagerState) (env : Environment) (app v : String)
    (h : envKeysOk s) : envKeysOk (envSet s env app v) := by
  unfold envKeysOk at h ⊢
  show (envSetL env app v s.environment_versions).map Prod.fst = _
  unfold envSetL
  rw [List.map_map]
  rw [show (Prod.fst ∘ fun p => if p.1 = env then (p.1, assocSet app v p.2) else p)
      = (Prod.fst : Environment × List (String × String) → Environment) from
    funext fun p => envSetL_fst env app v p]
  exact h

theorem envLookup_envSet (s : ManagerState) (env : Environment) (app v : String)
    (env' : Environment) (app' : String) :
    envLookup (envSet s env app v) env' app' =
      if env' = env then
        (if app' = app then
          (s.environment_versions.find? (fun p => p.1 = env)).map fun _ => v
        else envLookup s env' app')
      else envLookup s env' app' := by
  unfold envLookup envSet envSetL
  simp only
  rw [List.find?_map]
  rw [show ((fun p : Environment × List (String × String) => decide (p.1 = env')) ∘
        fun p : Environment × List (String × String) =>
          if p.1 = env then (p.1, assocSet app v p.2) else p)
      = (fun p : Environment × List (String × String) => decide (p.1 = env')) from
    funext fun p => by by_cases h : p.1 = env <;> simp [Function.comp, h]]
  by_cases henv : env' = env
  · subst henv
    cases hf : s.environment_versions.find? (fun p => p.1 = env') with
    | none => simp
    | some p =>
        have hp : p.1 = env' := by
          have := List.find?_some hf
          simpa using this
        by_cases happ : app' = app
        · subst happ
          simp [hp, assocSet_find_self]
        · simp [hp, assocSet_find_ne app app' v p.2 happ, happ]
  · cases hf : s.environment_versions.find? (fun p => p.1 = env') with
    | none => simp [henv]
    | some p =>
        have hp : p.1 = env' := by
          have := List.find?_some hf
          simpa using this
        have hpe : ¬(p.1 = env) := by rw [hp]; exact henv
        simp [hpe, henv]

theorem envSetL_keys (env : Environment) (app v : String)
    (l : List (Environment × List (String × String))) :
    (envSetL env app v l).map Prod.fst = l.map Prod.fst := by
  unfold envSetL
  rw [List.map_map]
  exact List.map_congr_left fun p _ => envSetL_fst env app v p

theorem successVersions_append (l₁ l₂ : List DeploymentRecord) (app : String)
    (env : Environment) :
    successVersions (l₁ ++ l₂) app env
      = successVersions l₁ app env ++ successVersions l₂ app env := by
  simp [successVersions, List.filter_append]

theorem isSuccessFor_successRecord_self (c : DeploymentConfig) (t : Nat) :
    isSuccessFor c.application_name c.environment (successRecord c t) = true := by
  simp [isSuccessFor, successRecord]

theorem successVersions_nonmatching (l : List DeploymentRecord) (app : String)
    (env : Environment) (h : ∀ r ∈ l, isSuccessFor app env r = false) :
    successVersions l app env = [] := by
  unfold successVersions
  rw [List.filter_eq_nil_iff.mpr fun a ha => by simp [h a ha]]
  rfl

/-- Membership of the environment key in the map follows from the key
invariant. -/
theorem find?_env_of_keys (l : List (Environment × List (String × String)))
    (h : l.map Prod.fst =
      [Environment.development, Environment.staging, Environment.production])
    (env : Environment) :
    ∃ p, l.find? (fun p => p.1 = env) = some p := by
  cases l with
  | nil => simp at h
  | cons p l2 =>
      cases l2 with
      | nil => simp at h
      | cons q l3 =>
          cases l3 with
          | nil => simp at h
          | cons r l4 =>
              cases l4 with
              | cons _ _ => simp at h
              | nil =>
                  simp only [List.map_cons, List.map_nil, List.cons.injEq] at h
                  obtain ⟨h1, h2, h3, _⟩ := h
                  cases env
                  · exact ⟨p, by simp [List.find?, h1]⟩
                  · refine ⟨q, ?_⟩
                    have hp : ¬(p.1 = Environment.staging) := by simp [h1]
                    simp [List.find?, hp, h2]
                  · refine ⟨r, ?_⟩
                    have hp : ¬(p.1 = Environment.production) := by simp [h1]
                    have hq : ¬(q.1 = Environment.production) := by simp [h2]
                    simp [List.find?, hp, hq, h3]

/-- Appending only non-success records (with fresh, increasing start times)
and advancing the clock preserves all invariants, whatever happens to the
record table. -/
theorem INV_extend_nonsuccess (s : ManagerState) (hinv : INV s)
    (new : List DeploymentRecord) (tb : List (String × Nat)) (dc : Nat)
    (hns : ∀ r ∈ new, ∀ app env, isSuccessFor app env r = false)
    (hmono : new.Pairwise fun a b => a.start_time < b.start_time)
    (hlo : ∀ r ∈ new, s.clock ≤ r.start_time)
    (hhi : ∀ r ∈ new, r.start_time < s.clock + dc) :
    INV { heap := s.heap ++ new, table := tb,
          environment_versions := s.environment_versions, clock := s.clock + dc } := by
  obtain ⟨hcd, htm, hek, hmc⟩ := hinv
  refine ⟨?_, ?_, hek, ?_⟩
  · intro r hr
    rcases List.mem_append.mp hr with h1 | h1
    · exact Nat.lt_of_lt_of_le (hcd r h1) (Nat.le_add_right _ _)
    · exact hhi r h1
  · refine List.pairwise_append.mpr ⟨htm, hmono, ?_⟩
    intro a ha b hb
    exact Nat.lt_of_lt_of_le (hcd a ha) (hlo b hb)
  · intro env app
    show envLookup s env app = (successVersions (s.heap ++ new) app env).getLast?
    rw [hmc env app]
    rw [successVersions_append]
    rw [successVersions_nonmatching new app env fun r hr => hns r hr app env]
    rw [List.append_nil]

/-- One `deploy` preserves the invariants. -/
theorem INV_deploy (s : ManagerState) (c : DeploymentConfig) (h : INV s) :
    INV (deploy s c).1 := by
  rcases checks_cases c.health_checks with hall | ⟨pre, bad, post, hdec, hpre, hbad⟩
  · rw [deploy_success_eq s c hall]
    obtain ⟨hcd, htm, hek, hmc⟩ := h
    refine ⟨?_, ?_, ?_, ?_⟩
    · intro r hr
      rcases List.mem_append.mp hr with h1 | h1
      · exact Nat.lt_of_lt_of_le (hcd r h1) (Nat.le_add_right _ _)
      · rw [List.mem_singleton.mp h1]
        show s.clock + 1 < s.clock + 3
        omega
    · refine List.pairwise_append.mpr ⟨htm, List.pairwise_singleton _ _, ?_⟩
      intro a ha b hb
      rw [List.mem_singleton.mp hb]
      show a.start_time < s.clock + 1
      exact Nat.lt_of_lt_of_le (hcd a ha) (Nat.le_succ _)
    · show envKeysOk (envSet s c.environment c.application_name c.version)
      unfold envKeysOk
      rw [show (envSet s c.environment c.application_name c.version).environment_versions
          = envSetL c.environment c.application_name c.version s.environment_versions
          from rfl]
      rw [envSetL_keys]
      exact hek
    · intro env' app'
      rw [show envLookup (successState s c) env' app'
          = envLookup (envSet s c.environment c.application_name c.version) env' app'
          from rfl]
      rw [envLookup_envSet]
      rw [show (successState s c).heap = s.heap ++ [successRecord c s.clock] from rfl]
      rw [successVersions_append]
      by_cases henv : env' = c.environment
      · by_cases happ : app' = c.application_name
        · rw [if_pos henv, if_pos happ]
          rcases find?_env_of_keys s.environment_versions hek c.environment with ⟨p, hp⟩
          rw [hp]
          subst henv
          subst happ
          rw [show successVersions [successRecord c s.clock]
              c.application_name c.environment = [c.version] from by
            simp [successVersions, isSuccessFor, successRecord]]
          rw [List.getLast?_concat]
          rfl
        · rw [if_pos henv, if_neg happ]
          have happ' : ¬(c.application_name = app') := fun hh => happ hh.symm
          rw [show successVersions [successRecord c s.clock] app' env' = [] from by
            simp only [successVersions, List.filter, isSuccessFor, successRecord]
            simp [happ']]
          rw [List.append_nil]
          exact hmc env' app'
      · rw [if_neg henv]
        have henv' : ¬(c.environment = env') := fun hh => henv hh.symm
        rw [show successVersions [successRecord c s.clock] app' env' = [] from by
          simp only [successVersions, List.filter, isSuccessFor, successRecord]
          simp [henv']]
        rw [List.append_nil]
        exact hmc env' app'
  · cases hrbe : c.rollback_enabled
    · rw [deploy_fail_norollback s c pre bad post hdec hpre hbad hrbe]
      exact INV_extend_nonsuccess s h [failedRecord c s.clock pre bad] _ 3
        (fun r hr app env => by
          rw [List.mem_singleton.mp hr]; exact isSuccessFor_failedRecord app env c s.clock pre bad)
        (List.pairwise_singleton _ _)
        (fun r hr => by rw [List.mem_singleton.mp hr]; exact Nat.le_succ _)
        (fun r hr => by rw [List.mem_singleton.mp hr]; show s.clock + 1 < s.clock + 3; omega)
    · cases htr : strTruthy (get_previous_version (failState s c pre bad)
          c.application_name c.environment)
      · rw [deploy_fail_no_target s c pre bad post hdec hpre hbad hrbe htr]
        exact INV_extend_nonsuccess s h
          [{ failedRecord c s.clock pre bad with
              logs := (failedRecord c s.clock pre bad).logs
                ++ ["No previous version found for rollback"] }] _ 3
          (fun r hr app env => by
            rw [List.mem_singleton.mp hr]; simp [isSuccessFor, failedRecord])
          (List.pairwise_singleton _ _)
          (fun r hr => by rw [List.mem_singleton.mp hr]; exact Nat.le_succ _)
          (fun r hr => by rw [List.mem_singleton.mp hr]; show s.clock + 1 < s.clock + 3; omega)
      · have hex : ∃ pv, get_previous_version (failState s c pre bad)
            c.application_name c.environment = some pv ∧ pv ≠ "" := by
          cases hg : get_previous_version (failState s c pre bad)
              c.application_name c.environment with
          | none => rw [hg] at htr; simp [strTruthy] at htr
          | some pv =>
              refine ⟨pv, rfl, ?_⟩
              rw [hg] at htr
              simpa [strTruthy] using htr
        rcases hex with ⟨pv, hg, hne⟩
        rw [deploy_fail_rollback s c pre bad post pv hdec hpre hbad hrbe hg hne]
        refine INV_extend_nonsuccess s h
          [rolledBackRecord c s.clock pre bad pv
              (generate_deployment_id (rollbackConfig c pv) (s.clock + 3)),
            failedRecord (rollbackConfig c pv) (s.clock + 3) pre bad] _ 6
          ?_ ?_ ?_ ?_
        · intro r hr app env
          rcases List.mem_cons.mp hr with h1 | h1
          · rw [h1]; simp [isSuccessFor, rolledBackRecord, failedRecord]
          · rw [List.mem_singleton.mp h1]
            exact isSuccessFor_failedRecord app env _ _ pre bad
        · refine List.pairwise_cons.mpr ⟨?_, List.pairwise_singleton _ _⟩
          intro b hb
          rw [List.mem_singleton.mp hb]
          show s.clock + 1 < s.clock + 3 + 1
          omega
        · intro r hr
          rcases List.mem_cons.mp hr with h1 | h1
          · rw [h1]; exact Nat.le_succ _
          · rw [List.mem_singleton.mp h1]
            show s.clock ≤ s.clock + 3 + 1
            omega
        · intro r hr
          rcases List.mem_cons.mp hr with h1 | h1
          · rw [h1]; show s.clock + 1 < s.clock + 6; omega
          · rw [List.mem_singleton.mp h1]
            show s.clock + 3 + 1 < s.clock + 6
            omega

theorem rollback_state_cases (s : ManagerState) (a : String) (e : Environment)
    (t : Option String) :
    (rollback s a e t).1 = s ∨ ∃ cfg, (rollback s a e t).1 = (deploy s cfg).1 := by
  unfold rollback
  cases t with
  | some tt =>
      dsimp only
      by_cases h : strTruthy (some tt) = true
      · right
        rw [if_pos h]
        exact ⟨_, rfl⟩
      · left
        rw [if_neg h]
  | none =>
      dsimp only
      by_cases h : strTruthy (get_previous_version s a e) = true
      · right
        rw [if_pos h]
        exact ⟨_, rfl⟩
      · left
        rw [if_neg h]

theorem INV_init : INV initManager := by
  refine ⟨?_, ?_, rfl, ?_⟩
  · intro r hr
    simp [initManager] at hr
  · simp [timesMono, initManager]
  · intro env app
    cases env <;> rfl

theorem INV_run (ops : List Op) : INV (run ops) := by
  suffices h : ∀ (l : List Op) (s : ManagerState), INV s → INV (l.foldl applyOp s) by
    exact h ops initManager INV_init
  intro l
  induction l with
  | nil => intro s hs; exact hs
  | cons op rest ih =>
      intro s hs
      show INV (rest.foldl applyOp (applyOp s op))
      apply ih
      cases op with
      | deployOp c => exact INV_deploy s c hs
      | rollbackOp a e t =>
          rcases rollback_state_cases s a e t with h1 | ⟨cfg, h1⟩
          · show INV (rollback s a e t).1
            rw [h1]
            exact hs
          · show INV (rollback s a e t).1
            rw [h1]
            exact INV_deploy s cfg hs

/-- Reading `get_environment_status()[env][app]` through the public API. -/
def statusLookup (s : ManagerState) (env : Environment) (app : String) : Option String :=
  match (get_environment_status s).find? (fun p => p.1 = env.value) with
  | some p => (p.2.find? (fun q => q.1 = app)).map (·.2)
  | none => none

theorem value_inj (e₁ e₂ : Environment) : e₁.value = e₂.value ↔ e₁ = e₂ := by
  cases e₁ <;> cases e₂ <;> decide

theorem statusLookup_eq (s : ManagerState) (env : Environment) (app : String) :
    statusLookup s env app = envLookup s env app := by
  unfold statusLookup get_environment_status envLookup
  rw [List.find?_map]
  rw [show ((fun p : String × List (String × String) => decide (p.1 = env.value)) ∘
      fun p : Environment × List (String × String) => (p.1.value, p.2))
    = fun p : Environment × List (String × String) => decide (p.1 = env) from
    funext fun p => by simp [Function.comp, value_inj]]
  cases s.environment_versions.find? (fun p => p.1 = env) <;> rfl

theorem pairwise_lt_getLast : ∀ l : List DeploymentRecord,
    l.Pairwise (fun a b => a.start_time < b.start_time) →
    ∀ x ∈ l, ∀ y, l.getLast? = some y → x = y ∨ x.start_time < y.start_time := by
  intro l
  induction l with
  | nil => intro _ x hx; simp at hx
  | cons z zs ih =>
      intro h x hx y hy
      rcases List.pairwise_cons.mp h with ⟨hz, hzs⟩
      cases zs with
      | nil =>
          left
          have hx' : x = z := by simpa using hx
          have hy' : y = z := by
            simp [List.getLast?] at hy
            exact hy.symm
          rw [hx', hy']
      | cons w ws =>
          have hy' : (w :: ws).getLast? = some y := by
            rw [← List.getLast?_cons_cons]
            exact hy
          rcases List.mem_cons.mp hx with h1 | h1
          · right
            have hym : y ∈ w :: ws := List.mem_of_getLast?_eq_some hy'
            rw [h1]
            exact hz y hym
          · exact ih hzs x h1 y hy'

/-- C2.  After any sequence of `deploy()`/`rollback()` calls, the version map
published by `get_environment_status` is consistent with the record objects:
an entry for `(env, app)` holds the `config.version` of the (unique — start
times are strictly increasing) success-status record with the latest
`start_time` among all records created for that pair, and the entry is absent
exactly when no record for the pair has status success. -/
theorem C2_version_map_consistency (ops : List Op) (env : Environment) (app : String) :
    (∀ v, statusLookup (run ops) env app = some v →
      ∃ r, r ∈ (run ops).heap ∧ isSuccessFor app env r = true ∧
        r.config.version = v ∧
        ∀ r' ∈ (run ops).heap, isSuccessFor app env r' = true →
          r' = r ∨ r'.start_time < r.start_time) ∧
    (statusLookup (run ops) env app = none →
      ∀ r ∈ (run ops).heap, isSuccessFor app env r = false) := by
  obtain ⟨hcd, htm, hek, hmc⟩ := INV_run ops
  constructor
  · intro v hv
    rw [statusLookup_eq, hmc env app] at hv
    unfold successVersions at hv
    rw [List.getLast?_map] at hv
    cases hg : ((run ops).heap.filter (isSuccessFor app env)).getLast? with
    | none => rw [hg] at hv; simp at hv
    | some rlast =>
        rw [hg] at hv
        have hvv : rlast.config.version = v := by simpa using hv
        have hmem := List.mem_filter.mp (List.mem_of_getLast?_eq_some hg)
        refine ⟨rlast, hmem.1, hmem.2, hvv, ?_⟩
        intro r' hr' hp'
        have hr'f : r' ∈ (run ops).heap.filter (isSuccessFor app env) :=
          List.mem_filter.mpr ⟨hr', hp'⟩
        have hpw : ((run ops).heap.filter (isSuccessFor app env)).Pairwise
            (fun a b => a.start_time < b.start_time) :=
          List.Pairwise.sublist (List.filter_sublist _) htm
        exact pairwise_lt_getLast _ hpw r' hr'f rlast hg
  · intro hv r hr
    rw [statusLookup_eq, hmc env app] at hv
    unfold successVersions at hv
    rw [List.getLast?_map] at hv
    have hnil : (run ops).heap.filter (isSuccessFor app env) = [] := by
      cases hfil : (run ops).heap.filter (isSuccessFor app env) with
      | nil => rfl
      | cons a t =>
          rw [hfil] at hv
          rcases List.getLast?_eq_none_iff.mp (by
            cases hq : (a :: t).getLast? with
            | none => rfl
            | some q => rw [hq] at hv; simp at hv) with h
          exact h
    have := List.filter_eq_nil_iff.mp hnil r hr
    simpa using this

theorem C2_version_map_consistency_witness :
    statusLookup (run [Op.deployOp cGoodC1]) Environment.production "web" = some "1.0.0" ∧
    (∃ r, r ∈ (run [Op.deployOp cGoodC1]).heap ∧
      isSuccessFor "web" Environment.production r = true ∧
      r.config.version = "1.0.0" ∧
      ∀ r' ∈ (run [Op.deployOp cGoodC1]).heap,
        isSuccessFor "web" Environment.production r' = true →
          r' = r ∨ r'.start_time < r.start_time) :=
  ⟨by decide,
    (C2_version_map_consistency [Op.deployOp cGoodC1] Environment.production "web").1
      "1.0.0" (by decide)⟩

/-! ### C7: record-table integrity and truncated-hash id collisions -/

/-- No collision has ever occurred: the dict holds one entry per record ever
created, pointing at the records in creation order. -/
def tableOk (s : ManagerState) : Prop :=
  s.table.map Prod.snd = List.range s.heap.length

def tableP (s : ManagerState) : Prop :=
  tableOk s ∨ s.table.length < s.heap.length

theorem tableOk_length (s : ManagerState) (h : tableOk s) :
    s.table.length = s.heap.length := by
  have := congrArg List.length h
  simpa using this

theorem valuesOf_eq_heap (s : ManagerState) (h : tableOk s) : valuesOf s = s.heap := by
  unfold valuesOf
  rw [show s.table.map (fun kv => s.heap.getD kv.2 defaultRecord)
      = (s.table.map Prod.snd).map (fun i => s.heap.getD i defaultRecord) from by
    rw [List.map_map]; rfl]
  rw [h, map_getD_range]

/-- One dict insert against a heap grown by one record: either the insert was
fresh and the positions stay `0..n`, or the table falls permanently short. -/
theorem tableP_step (table : List (String × Nat)) (n : Nat) (k : String)
    (h : table.map Prod.snd = List.range n ∨ table.length < n) :
    (dictInsert k n table).map Prod.snd = List.range (n + 1) ∨
      (dictInsert k n table).length < n + 1 := by
  by_cases hmem : ∃ p ∈ table, p.1 = k
  · right
    rw [dictInsert_length_of_mem k n table hmem]
    rcases h with h | h
    · have hlen : table.length = n := by
        have := congrArg List.length h
        simpa using this
      omega
    · omega
  · have hfresh : ∀ p ∈ table, p.1 ≠ k := fun p hp hpk => hmem ⟨p, hp, hpk⟩
    rw [dictInsert_of_not_mem k n table hfresh]
    rcases h with h | h
    · left
      rw [List.map_append, h, List.range_succ]
      rfl
    · right
      rw [List.length_append]
      simpa using Nat.add_lt_add_right h 1

theorem tableP_deploy (s : ManagerState) (c : DeploymentConfig) (h : tableP s) :
    tableP (deploy s c).1 := by
  rcases checks_cases c.health_checks with hall | ⟨pre, bad, post, hdec, hpre, hbad⟩
  · rw [deploy_success_eq s c hall]
    have := tableP_step s.table s.heap.length (generate_deployment_id c s.clock) h
    unfold tableP tableOk
    simpa [successState, List.length_append] using this
  · cases hrbe : c.rollback_enabled
    · rw [deploy_fail_norollback s c pre bad post hdec hpre hbad hrbe]
      have := tableP_step s.table s.heap.length (generate_deployment_id c s.clock) h
      unfold tableP tableOk
      simpa [failState, List.length_append] using this
    · cases htr : strTruthy (get_previous_version (failState s c pre bad)
          c.application_name c.environment)
      · rw [deploy_fail_no_target s c pre bad post hdec hpre hbad hrbe htr]
        have := tableP_step s.table s.heap.length (generate_deployment_id c s.clock) h
        unfold tableP tableOk
        simpa [noTargetState, List.length_append] using this
      · have hex : ∃ pv, get_previous_version (failState s c pre bad)
            c.application_name c.environment = some pv ∧ pv ≠ "" := by
          cases hg : get_previous_version (failState s c pre bad)
              c.application_name c.environment with
          | none => rw [hg] at htr; simp [strTruthy] at htr
          | some pv =>
              refine ⟨pv, rfl, ?_⟩
              rw [hg] at htr
              simpa [strTruthy] using htr
        rcases hex with ⟨pv, hg, hne⟩
        rw [deploy_fail_rollback s c pre bad post pv hdec hpre hbad hrbe hg hne]
        have h1 := tableP_step s.table s.heap.length (generate_deployment_id c s.clock) h
        have h2 := tableP_step (dictInsert (generate_deployment_id c s.clock)
            s.heap.length s.table) (s.heap.length + 1)
            (generate_deployment_id (rollbackConfig c pv) (s.clock + 3)) h1
        unfold tableP tableOk
        simpa [rollbackDoneState, List.length_append] using h2

theorem tableP_run (ops : List Op) : tableP (run ops) := by
  suffices h : ∀ (l : List Op) (s : ManagerState), tableP s → tableP (l.foldl applyOp s) by
    exact h ops initManager (Or.inl rfl)
  intro l
  induction l with
  | nil => intro s hs; exact hs
  | cons op rest ih =>
      intro s hs
      show tableP (rest.foldl applyOp (applyOp s op))
      apply ih
      cases op with
      | deployOp c => exact tableP_deploy s c hs
      | rollbackOp a e t =>
          rcases rollback_state_cases s a e t with h1 | ⟨cfg, h1⟩
          · show tableP (rollback s a e t).1
            rw [h1]
            exact hs
          · show tableP (rollback s a e t).1
            rw [h1]
            exact tableP_deploy s cfg hs

theorem dictInsert_find?_self_isSome (k : String) (v : Nat) (l : List (String × Nat)) :
    ((dictInsert k v l).find? (fun p => p.1 = k)).isSome = true := by
  induction l with
  | nil => simp [dictInsert, List.find?]
  | cons p rest ih =>
      by_cases hp : p.1 = k
      · simp [dictInsert, hp, List.find?]
      · simp [dictInsert, hp, List.find?, ih]

/-- The id returned by `deploy` is always present in the record table
afterwards (even when a collision replaced another entry's value). -/
theorem deploy_get_status_isSome (s : ManagerState) (c : DeploymentConfig) :
    (get_deployment_status (deploy s c).1 (deploy s c).2).isSome = true := by
  have hgen : ∀ (tb : List (String × Nat)) (k : String) (v : Nat)
      (h : List DeploymentRecord) (ev : List (Environment × List (String × String)))
      (ck : Nat),
      (get_deployment_status
        { heap := h, table := dictInsert k v tb, environment_versions := ev, clock := ck }
        k).isSome = true := by
    intro tb k v h ev ck
    unfold get_deployment_status
    dsimp only
    obtain ⟨q, hq⟩ := Option.isSome_iff_exists.mp (dictInsert_find?_self_isSome k v tb)
    rw [hq]
    rfl
  rcases checks_cases c.health_checks with hall | ⟨pre, bad, post, hdec, hpre, hbad⟩
  · have hsc := deploy_success_eq s c hall
    have h1 : (deploy s c).1 = successState s c := by rw [hsc]
    have h2 : (deploy s c).2 = generate_deployment_id c s.clock := by rw [hsc]
    rw [h1, h2]
    exact hgen _ _ _ _ _ _
  · cases hrbe : c.rollback_enabled
    · have hsc := deploy_fail_norollback s c pre bad post hdec hpre hbad hrbe
      have h1 : (deploy s c).1 = failState s c pre bad := by rw [hsc]
      have h2 : (deploy s c).2 = generate_deployment_id c s.clock := by rw [hsc]
      rw [h1, h2]
      exact hgen _ _ _ _ _ _
    · cases htr : strTruthy (get_previous_version (failState s c pre bad)
          c.application_name c.environment)
      · have hsc := deploy_fail_no_target s c pre bad post hdec hpre hbad hrbe htr
        have h1 : (deploy s c).1 = noTargetState s c pre bad := by rw [hsc]
        have h2 : (deploy s c).2 = generate_deployment_id c s.clock := by rw [hsc]
        rw [h1, h2]
        exact hgen _ _ _ _ _ _
      · have hex : ∃ pv, get_previous_version (failState s c pre bad)
            c.application_name c.environment = some pv ∧ pv ≠ "" := by
          cases hg : get_previous_version (failState s c pre bad)
              c.application_name c.environment with
          | none => rw [hg] at htr; simp [strTruthy] at htr
          | some pv =>
              refine ⟨pv, rfl, ?_⟩
              rw [hg] at htr
              simpa [strTruthy] using htr
        rcases hex with ⟨pv, hg, hne⟩
        have hsc := deploy_fail_rollback s c pre bad post pv hdec hpre hbad hrbe hg hne
        have h1 : (deploy s c).1 = rollbackDoneState s c pre bad pv := by rw [hsc]
        have h2 : (deploy s c).2 = generate_deployment_id c s.clock := by rw [hsc]
        rw [h1, h2]
        by_cases hid : generate_deployment_id (rollbackConfig c pv) (s.clock + 3)
            = generate_deployment_id c s.clock
        · unfold rollbackDoneState
          rw [← hid]
          exact hgen _ _ _ _ _ _
        · unfold get_deployment_status rollbackDoneState
          dsimp only
          rw [dictInsert_find?_of_ne _ _ _ _ (fun hh => hid hh.symm)]
          obtain ⟨q, hq⟩ := Option.isSome_iff_exists.mp
            (dictInsert_find?_self_isSome (generate_deployment_id c s.clock)
              s.heap.length s.table)
          rw [hq]
          rfl

/-- `deploy` only ever appends record objects; none is destroyed. -/
theorem deploy_heap_ext (s : ManagerState) (c : DeploymentConfig) :
    ∃ l, (deploy s c).1.heap = s.heap ++ l := by
  rcases checks_cases c.health_checks with hall | ⟨pre, bad, post, hdec, hpre, hbad⟩
  · have hsc := deploy_success_eq s c hall
    have h1 : (deploy s c).1 = successState s c := by rw [hsc]
    rw [h1]
    exact ⟨_, rfl⟩
  · cases hrbe : c.rollback_enabled
    · have hsc := deploy_fail_norollback s c pre bad post hdec hpre hbad hrbe
      have h1 : (deploy s c).1 = failState s c pre bad := by rw [hsc]
      rw [h1]
      exact ⟨_, rfl⟩
    · cases htr : strTruthy (get_previous_version (failState s c pre bad)
          c.application_name c.environment)
      · have hsc := deploy_fail_no_target s c pre bad post hdec hpre hbad hrbe htr
        have h1 : (deploy s c).1 = noTargetState s c pre bad := by rw [hsc]
        rw [h1]
        exact ⟨_, rfl⟩
      · have hex : ∃ pv, get_previous_version (failState s c pre bad)
            c.application_name c.environment = some pv ∧ pv ≠ "" := by
          cases hg : get_previous_version (failState s c pre bad)
              c.application_name c.environment with
          | none => rw [hg] at htr; simp [strTruthy] at htr
          | some pv =>
              refine ⟨pv, rfl, ?_⟩
              rw [hg] at htr
              simpa [strTruthy] using htr
        rcases hex with ⟨pv, hg, hne⟩
        have hsc := deploy_fail_rollback s c pre bad post pv hdec hpre hbad hrbe hg hne
        have h1 : (deploy s c).1 = rollbackDoneState s c pre bad pv := by rw [hsc]
        rw [h1]
        exact ⟨_, rfl⟩

/-- Once the table has fallen behind the heap (a collision happened), it
never catches up. -/
theorem deploy_gap (s : ManagerState) (c : DeploymentConfig)
    (h : s.table.length < s.heap.length) :
    (deploy s c).1.table.length < (deploy s c).1.heap.length := by
  rcases checks_cases c.health_checks with hall | ⟨pre, bad, post, hdec, hpre, hbad⟩
  · have hsc := deploy_success_eq s c hall
    have h1 : (deploy s c).1 = successState s c := by rw [hsc]
    rw [h1]
    have := dictInsert_length_le (generate_deployment_id c s.clock) s.heap.length s.table
    show (dictInsert (generate_deployment_id c s.clock) s.heap.length s.table).length
        < (s.heap ++ [successRecord c s.clock]).length
    rw [List.length_append]
    simp only [List.length_cons, List.length_nil]
    omega
  · cases hrbe : c.rollback_enabled
    · have hsc := deploy_fail_norollback s c pre bad post hdec hpre hbad hrbe
      have h1 : (deploy s c).1 = failState s c pre bad := by rw [hsc]
      rw [h1]
      have := dictInsert_length_le (generate_deployment_id c s.clock) s.heap.length s.table
      show (dictInsert (generate_deployment_id c s.clock) s.heap.length s.table).length
          < (s.heap ++ [failedRecord c s.clock pre bad]).length
      rw [List.length_append]
      simp only [List.length_cons, List.length_nil]
      omega
    · cases htr : strTruthy (get_previous_version (failState s c pre bad)
          c.application_name c.environment)
      · have hsc := deploy_fail_no_target s c pre bad post hdec hpre hbad hrbe htr
        have h1 : (deploy s c).1 = noTargetState s c pre bad := by rw [hsc]
        rw [h1]
        have := dictInsert_length_le (generate_deployment_id c s.clock) s.heap.length s.table
        unfold noTargetState
        dsimp only
        rw [List.length_append]
        simp only [List.length_cons, List.length_nil]
        omega
      · have hex : ∃ pv, get_previous_version (failState s c pre bad)
            c.application_name c.environment = some pv ∧ pv ≠ "" := by
          cases hg : get_previous_version (failState s c pre bad)
              c.application_name c.environment with
          | none => rw [hg] at htr; simp [strTruthy] at htr
          | some pv =>
              refine ⟨pv, rfl, ?_⟩
              rw [hg] at htr
              simpa [strTruthy] using htr
        rcases hex with ⟨pv, hg, hne⟩
        have hsc := deploy_fail_rollback s c pre bad post pv hdec hpre hbad hrbe hg hne
        have h1 : (deploy s c).1 = rollbackDoneState s c pre bad pv := by rw [hsc]
        rw [h1]
        have ha := dictInsert_length_le (generate_deployment_id c s.clock)
          s.heap.length s.table
        have hb := dictInsert_length_le
          (generate_deployment_id (rollbackConfig c pv) (s.clock + 3)) (s.heap.length + 1)
          (dictInsert (generate_deployment_id c s.clock) s.heap.length s.table)
        unfold rollbackDoneState
        dsimp only
        rw [List.length_append]
        simp only [List.length_cons, List.length_nil]
        omega

theorem find?_snoc_fresh (l : List (String × Nat)) (k : String) (v : Nat)
    (hf : ∀ p ∈ l, p.1 ≠ k) :
    (l ++ [(k, v)]).find? (fun p => p.1 = k) = some (k, v) := by
  rw [List.find?_append]
  rw [List.find?_eq_none.mpr fun x hx => by simpa using hf x hx]
  simp [List.find?]

/-- A fresh single insert (forced by the final no-collision count) makes the
returned id resolve to the inserted record. -/
theorem gds_single (tb : List (String × Nat)) (heap : List DeploymentRecord)
    (ev : List (Environment × List (String × String))) (ck : Nat)
    (rec : DeploymentRecord) (k : String) (hslen : tb.length = heap.length)
    (hnc : (dictInsert k heap.length tb).length = (heap ++ [rec]).length) :
    get_deployment_status
        { heap := heap ++ [rec], table := dictInsert k heap.length tb,
          environment_versions := ev, clock := ck } k = some rec := by
  rw [List.length_append] at hnc
  simp only [List.length_cons, List.length_nil] at hnc
  have hfresh : ∀ p ∈ tb, p.1 ≠ k := by
    intro p hp hpk
    rw [dictInsert_length_of_mem k heap.length tb ⟨p, hp, hpk⟩] at hnc
    omega
  unfold get_deployment_status
  dsimp only
  rw [dictInsert_of_not_mem k heap.length tb hfresh]
  rw [find?_snoc_fresh tb k heap.length hfresh]
  show some ((heap ++ [rec]).getD heap.length defaultRecord) = some rec
  rw [getD_self_append]

/-- Two fresh inserts (forced by the final no-collision count): the first id
still resolves to the first record. -/
theorem gds_double (tb : List (String × Nat)) (heap : List DeploymentRecord)
    (ev : List (Environment × List (String × String))) (ck : Nat)
    (r1 r2 : DeploymentRecord) (k1 k2 : String) (hslen : tb.length = heap.length)
    (hnc : (dictInsert k2 (heap.length + 1) (dictInsert k1 heap.length tb)).length
      = (heap ++ [r1, r2]).length) :
    get_deployment_status
        { heap := heap ++ [r1, r2],
          table := dictInsert k2 (heap.length + 1) (dictInsert k1 heap.length tb),
          environment_versions := ev, clock := ck } k1 = some r1 := by
  rw [List.length_append] at hnc
  simp only [List.length_cons, List.length_nil] at hnc
  have hfresh1 : ∀ p ∈ tb, p.1 ≠ k1 := by
    intro p hp hpk
    have h1 : (dictInsert k1 heap.length tb).length = tb.length :=
      dictInsert_length_of_mem _ _ _ ⟨p, hp, hpk⟩
    have hb := dictInsert_length_le k2 (heap.length + 1) (dictInsert k1 heap.length tb)
    rw [h1, hslen] at hb
    omega
  have ht1 : dictInsert k1 heap.length tb = tb ++ [(k1, heap.length)] :=
    dictInsert_of_not_mem _ _ _ hfresh1
  have hlen1 : (dictInsert k1 heap.length tb).length = tb.length + 1 := by
    rw [ht1]
    rw [List.length_append]
    simp
  have hfresh2 : ∀ p ∈ dictInsert k1 heap.length tb, p.1 ≠ k2 := by
    intro p hp hpk
    have h2 := dictInsert_length_of_mem k2 (heap.length + 1)
      (dictInsert k1 heap.length tb) ⟨p, hp, hpk⟩
    omega
  unfold get_deployment_status
  dsimp only
  rw [dictInsert_of_not_mem _ _ _ hfresh2, ht1]
  rw [List.find?_append]
  rw [find?_snoc_fresh tb k1 heap.length hfresh1]
  rw [Option.or_some]
  show some ((heap ++ r1 :: r2 :: []).getD heap.length defaultRecord) = some r1
  rw [getD_self_append]

/-- When the final state shows no collision ever happened, the table is
position-perfect both before and after the deploy, and the returned id
resolves to this deploy's own record (hence the deployed version). -/
theorem deploy_no_collision_spec (s : ManagerState) (c : DeploymentConfig)
    (hP : tableP s)
    (hnc : (deploy s c).1.table.length = (deploy s c).1.heap.length) :
    tableOk (deploy s c).1 ∧ tableOk s ∧
    (get_deployment_status (deploy s c).1 (deploy s c).2).map (fun r => r.config.version)
      = some c.version := by
  have hok' : tableOk (deploy s c).1 := by
    rcases tableP_deploy s c hP with h | h
    · exact h
    · rw [hnc] at h
      exact absurd h (lt_irrefl _)
  have hoks : tableOk s := by
    rcases hP with h | h
    · exact h
    · have := deploy_gap s c h
      rw [hnc] at this
      exact absurd this (lt_irrefl _)
  have hslen : s.table.length = s.heap.length := tableOk_length s hoks
  refine ⟨hok', hoks, ?_⟩
  rcases checks_cases c.health_checks with hall | ⟨pre, bad, post, hdec, hpre, hbad⟩
  · have hsc := deploy_success_eq s c hall
    have h1 : (deploy s c).1 = successState s c := by rw [hsc]
    have h2 : (deploy s c).2 = generate_deployment_id c s.clock := by rw [hsc]
    have hnc1 : (dictInsert (generate_deployment_id c s.clock) s.heap.length s.table).length
        = (s.heap ++ [successRecord c s.clock]).length := by
      have h' := hnc
      rw [h1] at h'
      exact h'
    have hval : get_deployment_status (successState s c)
        (generate_deployment_id c s.clock) = some (successRecord c s.clock) :=
      gds_single s.table s.heap _ _ (successRecord c s.clock) _ hslen hnc1
    rw [h1, h2, hval]
    rfl
  · cases hrbe : c.rollback_enabled
    · have hsc := deploy_fail_norollback s c pre bad post hdec hpre hbad hrbe
      have h1 : (deploy s c).1 = failState s c pre bad := by rw [hsc]
      have h2 : (deploy s c).2 = generate_deployment_id c s.clock := by rw [hsc]
      have hnc1 : (dictInsert (generate_deployment_id c s.clock)
          s.heap.length s.table).length
          = (s.heap ++ [failedRecord c s.clock pre bad]).length := by
        have h' := hnc
        rw [h1] at h'
        exact h'
      have hval : get_deployment_status (failState s c pre bad)
          (generate_deployment_id c s.clock) = some (failedRecord c s.clock pre bad) :=
        gds_single s.table s.heap _ _ (failedRecord c s.clock pre bad) _ hslen hnc1
      rw [h1, h2, hval]
      rfl
    · cases htr : strTruthy (get_previous_version (failState s c pre bad)
          c.application_name c.environment)
      · have hsc := deploy_fail_no_target s c pre bad post hdec hpre hbad hrbe htr
        have h1 : (deploy s c).1 = noTargetState s c pre bad := by rw [hsc]
        have h2 : (deploy s c).2 = generate_deployment_id c s.clock := by rw [hsc]
        have hnc1 : (dictInsert (generate_deployment_id c s.clock)
            s.heap.length s.table).length
            = (s.heap ++ [{ failedRecord c s.clock pre bad with
                logs := (failedRecord c s.clock pre bad).logs
                  ++ ["No previous version found for rollback"] }]).length := by
          have h' := hnc
          rw [h1] at h'
          exact h'
        have hval : get_deployment_status (noTargetState s c pre bad)
            (generate_deployment_id c s.clock)
            = some { failedRecord c s.clock pre bad with
                logs := (failedRecord c s.clock pre bad).logs
                  ++ ["No previous version found for rollback"] } :=
          gds_single s.table s.heap _ _ _ _ hslen hnc1
        rw [h1, h2, hval]
        rfl
      · have hex : ∃ pv, get_previous_version (failState s c pre bad)
            c.application_name c.environment = some pv ∧ pv ≠ "" := by
          cases hg : get_previous_version (failState s c pre bad)
              c.application_name c.environment with
          | none => rw [hg] at htr; simp [strTruthy] at htr
          | some pv =>
              refine ⟨pv, rfl, ?_⟩
              rw [hg] at htr
              simpa [strTruthy] using htr
        rcases hex with ⟨pv, hg, hne⟩
        have hsc := deploy_fail_rollback s c pre bad post pv hdec hpre hbad hrbe hg hne
        have h1 : (deploy s c).1 = rollbackDoneState s c pre bad pv := by rw [hsc]
        have h2 : (deploy s c).2 = generate_deployment_id c s.clock := by rw [hsc]
        have hnc1 : (dictInsert
            (generate_deployment_id (rollbackConfig c pv) (s.clock + 3))
            (s.heap.length + 1)
            (dictInsert (generate_deployment_id c s.clock) s.heap.length s.table)).length
            = (s.heap ++
              [rolledBackRecord c s.clock pre bad pv
                  (generate_deployment_id (rollbackConfig c pv) (s.clock + 3)),
                failedRecord (rollbackConfig c pv) (s.clock + 3) pre bad]).length := by
          have h' := hnc
          rw [h1] at h'
          exact h'
        have hval : get_deployment_status (rollbackDoneState s c pre bad pv)
            (generate_deployment_id c s.clock)
            = some (rolledBackRecord c s.clock pre bad pv
                (generate_deployment_id (rollbackConfig c pv) (s.clock + 3))) :=
          gds_double s.table s.heap _ _ _ _ _ _ hslen hnc1
        rw [h1, h2, hval]
        rfl

/-- First half of a truncated-md5 collision pair: deployed at logical
instant 0, its id data is `web-1.0.68264-production-0`. -/
def collA : DeploymentConfig :=
  { application_name := "web", version := "1.0.68264", environment := .production
    artifact_url := "s3://a", health_checks := [] }

/-- Second half of the collision pair: deployed at logical instant 3, its id
data is `web-2.0.40051-production-3`, whose md5 digest shares its first
eight hex characters with `collA`'s. -/
def collB : DeploymentConfig :=
  { application_name := "web", version := "2.0.40051", environment := .production
    artifact_url := "s3://b", health_checks := [hcDead], rollback_enabled := false }

/-- C7 counterexample.  Ids are the first 8 hex characters of an md5 digest,
so distinct deployments can collide; `self.deployments[deployment_id] =
record` then replaces the earlier dict entry.  Deploying `collA` and then
`collB` on a fresh manager yields the same id `45498e56` twice: both record
objects survive (heap length 2), but the record table has a single entry,
the earlier deployment's record is no longer reachable via
`get_deployment_status`, and `deployments.values()` no longer lists it.
This refutes "inserting one deployment never deletes or replaces another". -/
theorem C7_counterexample :
    generate_deployment_id collA 0 = generate_deployment_id collB 3 ∧
    (run [Op.deployOp collA, Op.deployOp collB]).heap.length = 2 ∧
    (run [Op.deployOp collA, Op.deployOp collB]).table.length = 1 ∧
    (valuesOf (run [Op.deployOp collA, Op.deployOp collB])).map
      (fun r => r.config.version) = ["2.0.40051"] ∧
    ((run [Op.deployOp collA, Op.deployOp collB]).heap.getD 0
      defaultRecord).config.version = "1.0.68264" ∧
    ((run [Op.deployOp collA, Op.deployOp collB]).heap.getD 0
      defaultRecord).status = DeploymentStatus.success ∧
    (get_deployment_status (run [Op.deployOp collA, Op.deployOp collB])
      (generate_deployment_id collA 0)).map (fun r => r.config.version)
      = some "2.0.40051" := by
  decide

/-- C7 (amended): for every valid config, `deploy()` returns an id such that
`get_deployment_status(id)` is non-null, and record objects are only ever
appended to the heap, never destroyed; but the record *table* can replace an
entry when the truncated-md5 id collides with an existing one.  Provided no
collision has occurred (the table still has one entry per record ever
created), the returned id's record carries the deployed config's version and
`deployments.values()` lists every record ever created, both before and
after the deploy. -/
theorem C7_records_never_replaced_amended (ops : List Op) (c : DeploymentConfig)
    (hnc : (deploy (run ops) c).1.table.length = (deploy (run ops) c).1.heap.length) :
    (get_deployment_status (deploy (run ops) c).1 (deploy (run ops) c).2).isSome = true ∧
    (∃ l, (deploy (run ops) c).1.heap = (run ops).heap ++ l) ∧
    (get_deployment_status (deploy (run ops) c).1 (deploy (run ops) c).2).map
      (fun r => r.config.version) = some c.version ∧
    valuesOf (deploy (run ops) c).1 = (deploy (run ops) c).1.heap ∧
    valuesOf (run ops) = (run ops).heap := by
  have hspec := deploy_no_collision_spec (run ops) c (tableP_run ops) hnc
  exact ⟨deploy_get_status_isSome _ _, deploy_heap_ext _ _, hspec.2.2,
    valuesOf_eq_heap _ hspec.1, valuesOf_eq_heap _ hspec.2.1⟩

/-- Concrete instantiation of the amended C7 theorem: a single deploy of
`cGoodC1` on a fresh manager, where no collision can have occurred. -/
theorem C7_records_never_replaced_amended_witness :
    (deploy (run []) cGoodC1).1.table.length = (deploy (run []) cGoodC1).1.heap.length ∧
    ((get_deployment_status (deploy (run []) cGoodC1).1 (deploy (run []) cGoodC1).2).isSome = true ∧
    (∃ l, (deploy (run []) cGoodC1).1.heap = (run []).heap ++ l) ∧
    (get_deployment_status (deploy (run []) cGoodC1).1 (deploy (run []) cGoodC1).2).map
      (fun r => r.config.version) = some cGoodC1.version ∧
    valuesOf (deploy (run []) cGoodC1).1 = (deploy (run []) cGoodC1).1.heap ∧
    valuesOf (run []) = (run []).heap) :=
  ⟨by decide, C7_records_never_replaced_amended [] cGoodC1 (by decide)⟩

end CICD
